import Mathlib

/-!
Verification of the heatmap comparison engine of `src/visualization/plot_3d_like.py`:
binning of continuous/categorical columns (`find_percentiles`, `remove_nans`),
cardinality reduction (`add_column_other`), contingency-grid construction,
normalization and baseline comparison, and the two-proportion z-test
(`ttest_bernoulli_ind`), orchestrated by `calculate_ticks_and_norm`.

Modelling conventions:
* Python/NumPy floats are modelled by exact rationals `ℚ`; the IEEE-754
  special values (NaN and the infinities), on which the significance test
  relies, are modelled by the inductive type `RF` below.  Rounding of binary
  floats is not modelled; no claim under consideration depends on it.
* Rational arithmetic is implemented through `Rat.divInt` (numerator/denominator
  formulas) so that every operation reduces inside the kernel; the lemmas
  `qadd_eq`, `qsub_eq`, `qmul_eq`, `qdiv_eq`, `qneg_eq` prove that these
  operations coincide with the field operations of `ℚ`.
* `scipy.stats.norm.sf` (the standard normal survival function) is external
  library code; it is modelled as a parameter `sf : ℚ → ℚ` giving its values at
  finite arguments, with its fixed values at `±∞` and NaN built into `sfRF`.
-/

namespace Plot3dLike

/-- Rational negation via a numerator/denominator formula (kernel-reducible). -/
def qneg (a : ℚ) : ℚ := Rat.divInt (-a.num) a.den

/-- Rational addition via a numerator/denominator formula (kernel-reducible). -/
def qadd (a b : ℚ) : ℚ := Rat.divInt (a.num * b.den + b.num * a.den) (a.den * b.den)

/-- Rational subtraction, as addition of the negation. -/
def qsub (a b : ℚ) : ℚ := qadd a (qneg b)

/-- Rational multiplication via a numerator/denominator formula (kernel-reducible). -/
def qmul (a b : ℚ) : ℚ := Rat.divInt (a.num * b.num) (a.den * b.den)

/-- Rational division via a numerator/denominator formula (kernel-reducible).
For a zero divisor this returns `0`; all call sites guard the zero case
separately (in `RF.div`) or are only reached with a nonzero divisor. -/
def qdiv (a b : ℚ) : ℚ := Rat.divInt (a.num * b.den) (a.den * b.num)

/-- Natural number as a rational (kernel-reducible). -/
def qofNat (n : ℕ) : ℚ := mkRat n 1

/-- Sum of a list of rationals through `qadd` (kernel-reducible). -/
def qsum (l : List ℚ) : ℚ := l.foldr qadd 0

/-- Kernel-reducible integer square root (largest `k` with `k * k ≤ n`). -/
def isqrt (n : ℕ) : ℕ := ((List.range (n + 1)).filter (fun k => k * k ≤ n)).length - 1

/-- Square root on `ℚ`; exact on perfect squares (the only case reached by the
claims below: the float `sqrt` is likewise exact there).  On non-squares it is
an integer-rounded stand-in, just as the float `sqrt` is a rounded stand-in. -/
def qsqrt (q : ℚ) : ℚ := Rat.divInt (isqrt q.num.toNat) (isqrt q.den)

/-! ## IEEE-754-style values

`RF` models the values a NumPy float64 cell can take in this code: NaN, the two
infinities, and finite values (modelled exactly by `ℚ`).  The operations follow
the IEEE-754 special-value rules used by NumPy; signed zero is not
distinguished (no claim depends on it). -/

inductive RF : Type where
  | nan : RF
  | pinf : RF
  | ninf : RF
  | val : ℚ → RF
deriving DecidableEq

namespace RF

def neg : RF → RF
  | nan => nan
  | pinf => ninf
  | ninf => pinf
  | val q => val (qneg q)

def add : RF → RF → RF
  | nan, _ => nan
  | _, nan => nan
  | pinf, ninf => nan
  | ninf, pinf => nan
  | pinf, _ => pinf
  | _, pinf => pinf
  | ninf, _ => ninf
  | _, ninf => ninf
  | val a, val b => val (qadd a b)

def sub (a b : RF) : RF := add a (neg b)

def mul : RF → RF → RF
  | nan, _ => nan
  | _, nan => nan
  | pinf, pinf => pinf
  | pinf, ninf => ninf
  | ninf, pinf => ninf
  | ninf, ninf => pinf
  | pinf, val b => if b = 0 then nan else if 0 < b then pinf else ninf
  | val a, pinf => if a = 0 then nan else if 0 < a then pinf else ninf
  | ninf, val b => if b = 0 then nan else if 0 < b then ninf else pinf
  | val a, ninf => if a = 0 then nan else if 0 < a then ninf else pinf
  | val a, val b => val (qmul a b)

def div : RF → RF → RF
  | nan, _ => nan
  | _, nan => nan
  | pinf, pinf => nan
  | pinf, ninf => nan
  | ninf, pinf => nan
  | ninf, ninf => nan
  | pinf, val b => if 0 ≤ b then pinf else ninf
  | ninf, val b => if 0 ≤ b then ninf else pinf
  | val _, pinf => val 0
  | val _, ninf => val 0
  | val a, val b =>
      if b = 0 then (if a = 0 then nan else if 0 < a then pinf else ninf)
      else val (qdiv a b)

def sqrt : RF → RF
  | nan => nan
  | pinf => pinf
  | ninf => nan
  | val q => if q < 0 then nan else val (qsqrt q)

def abs : RF → RF
  | nan => nan
  | pinf => pinf
  | ninf => pinf
  | val q => val (if q < 0 then qneg q else q)

def isNan : RF → Bool
  | nan => true
  | _ => false

/-- Boolean comparison used for non-NaN operands of `minimum` and `leB`. -/
def leAux : RF → RF → Bool
  | nan, _ => false
  | _, nan => false
  | ninf, _ => true
  | _, ninf => false
  | _, pinf => true
  | pinf, _ => false
  | val a, val b => decide (a ≤ b)

/-- `np.minimum`: NaN-propagating elementwise minimum. -/
def minimum (a b : RF) : RF :=
  if a.isNan || b.isNan then nan else if leAux a b then a else b

/-- IEEE comparison `a <= b`: false whenever one operand is NaN. -/
def leB (a b : RF) : Bool :=
  if a.isNan || b.isNan then false else leAux a b

end RF

/-- `scipy.stats.norm.sf` lifted to `RF`: the finite behaviour is the abstract
parameter `sf`, and the fixed values `sf(+inf) = 0`, `sf(-inf) = 1`,
`sf(NaN) = NaN`. -/
def sfRF (sf : ℚ → ℚ) : RF → RF
  | RF.nan => RF.nan
  | RF.pinf => RF.val 0
  | RF.ninf => RF.val 1
  | RF.val z => RF.val (sf z)

/-! ## NumPy arrays with broadcasting

A 2-D NumPy array is modelled by its shape and a total entry function (values
outside the shape are irrelevant junk; all consumers read within range).
Broadcasting follows NumPy: a dimension of size 1 is stretched, realised by
indexing through `bidx`.  `brDim` is the broadcast of two compatible dimension
sizes (for incompatible shapes NumPy raises; theorems about well-formed use
sites only instantiate compatible shapes). -/

structure NpArr where
  rows : ℕ
  cols : ℕ
  ent : ℕ → ℕ → RF

structure BoolArr where
  rows : ℕ
  cols : ℕ
  ent : ℕ → ℕ → Bool

def brDim (a b : ℕ) : ℕ := if a = 1 then b else a

def bidx (d i : ℕ) : ℕ := if d = 1 then 0 else i

def NpArr.map2 (f : RF → RF → RF) (a b : NpArr) : NpArr :=
  ⟨brDim a.rows b.rows, brDim a.cols b.cols,
   fun i j => f (a.ent (bidx a.rows i) (bidx a.cols j)) (b.ent (bidx b.rows i) (bidx b.cols j))⟩

def NpArr.map1 (f : RF → RF) (a : NpArr) : NpArr :=
  ⟨a.rows, a.cols, fun i j => f (a.ent i j)⟩

/-- `arr.size`: the total number of entries. -/
def NpArr.size (a : NpArr) : ℕ := a.rows * a.cols

/-- Broadcast-aware entry: the value the array contributes at result cell
`(i, j)` of an elementwise operation. -/
def NpArr.bent (a : NpArr) (i j : ℕ) : RF := a.ent (bidx a.rows i) (bidx a.cols j)

/-! ## The significance test (`ttest_bernoulli_ind`, source lines 95-126) -/

/-- `std = np.sqrt(theta1 * (1 - theta1)/num1 + theta2 * (1 - theta2)/num2)`. -/
def ttest_std (theta1 theta2 num1 num2 : NpArr) : NpArr :=
  NpArr.map1 RF.sqrt
    (NpArr.map2 RF.add
      (NpArr.map2 RF.div
        (NpArr.map2 RF.mul theta1 (NpArr.map1 (fun x => RF.sub (RF.val 1) x) theta1)) num1)
      (NpArr.map2 RF.div
        (NpArr.map2 RF.mul theta2 (NpArr.map1 (fun x => RF.sub (RF.val 1) x) theta2)) num2))

/-- `Z_score = (theta1 - theta2)/std`. -/
def ttest_Z (theta1 theta2 num1 num2 : NpArr) : NpArr :=
  NpArr.map2 RF.div (NpArr.map2 RF.sub theta1 theta2) (ttest_std theta1 theta2 num1 num2)

/-- `p_value = 2 * sps.norm.sf(np.absolute(Z_score))`. -/
def ttest_pvalue (sf : ℚ → ℚ) (theta1 theta2 num1 num2 : NpArr) : NpArr :=
  NpArr.map1 (fun z => RF.mul (RF.val 2) (sfRF sf (RF.abs z)))
    (ttest_Z theta1 theta2 num1 num2)

/-- `ttest_bernoulli_ind` (source lines 95-126): with `mht` set, the p-values
are replaced by `np.minimum(1.0, p_value * num1.size)` before the comparison
`p_value <= alpha`. -/
def ttest_bernoulli_ind (sf : ℚ → ℚ) (theta1 theta2 num1 num2 : NpArr)
    (mht : Bool) (alpha : ℚ) : BoolArr :=
  let p := ttest_pvalue sf theta1 theta2 num1 num2
  let p :=
    if mht then
      NpArr.map1 (fun x => RF.minimum (RF.val 1) (RF.mul x (RF.val (num1.size : ℚ)))) p
    else p
  ⟨p.rows, p.cols, fun i j => RF.leB (p.ent i j) (RF.val alpha)⟩

/-- Modelled from the claim text of C2 (not from the source): the Bonferroni
factor is taken to be the total number of cells being tested, i.e. the number
of entries of the p-value grid itself, instead of `num1.size`. -/
def ttest_bernoulli_ind_claimed (sf : ℚ → ℚ) (theta1 theta2 num1 num2 : NpArr)
    (mht : Bool) (alpha : ℚ) : BoolArr :=
  let p := ttest_pvalue sf theta1 theta2 num1 num2
  let cells := p.rows * p.cols
  let p :=
    if mht then
      NpArr.map1 (fun x => RF.minimum (RF.val 1) (RF.mul x (RF.val (cells : ℚ)))) p
    else p
  ⟨p.rows, p.cols, fun i j => RF.leB (p.ent i j) (RF.val alpha)⟩

/-! ## Pandas-style list utilities

Label columns are modelled as `List String`.  `uniqFirst` is
`pandas.Series.unique` (distinct values in order of first appearance).
Sorting is modelled by the stable `List.insertionSort`; `sLe` is Python string
comparison (lexicographic by code point), implemented so that it reduces in the
kernel. -/

def uniqFirstAux {α : Type} [DecidableEq α] (seen : List α) : List α → List α
  | [] => []
  | x :: rest => if x ∈ seen then uniqFirstAux seen rest else x :: uniqFirstAux (x :: seen) rest

def uniqFirst {α : Type} [DecidableEq α] (xs : List α) : List α := uniqFirstAux [] xs

/-- Python string comparison: lexicographic on code points. -/
def strLtB : List Char → List Char → Bool
  | [], [] => false
  | [], _ :: _ => true
  | _ :: _, [] => false
  | a :: as, b :: bs =>
      if a.val < b.val then true else if b.val < a.val then false else strLtB as bs

def strLeB (a b : String) : Bool := !(strLtB b.data a.data)

def sLe (a b : String) : Prop := strLeB a b = true

instance : DecidableRel sLe := fun a b => decidable_of_iff (strLeB a b = true) Iff.rfl

/-- `sorted(...)` on a list of labels (Python sorted: by code point). -/
def pySorted (xs : List String) : List String := List.insertionSort sLe xs

/-! ## The cardinality reducer (`add_column_other`, source lines 129-153) -/

/-- `data[col].value_counts().reset_index().sort_values(by="count", ascending=False)`:
the distinct values ordered by decreasing count.  The embedding uses a stable
sort on the first-appearance order of the distinct values; the pandas tie order
at equal counts is unspecified (its sort is not stable), and every theorem
below is insensitive to the tie order. -/
def value_counts (xs : List String) : List String :=
  List.insertionSort (fun a b => xs.count b ≤ xs.count a) (uniqFirst xs)

/-- The first renaming strategy of `add_column_other`:
`lambda x: x if x in top_num else "Other"`. -/
def keepStrategy (top_num : List String) (x : String) : String :=
  if x ∈ top_num then x else "Other"

/-- The second renaming strategy of `add_column_other`:
`lambda x: x if not x in bottom_num else "Other"`. -/
def collapseStrategy (bottom_num : List String) (x : String) : String :=
  if x ∈ bottom_num then "Other" else x

/-- `add_column_other` (source lines 129-153), at the level of the label column
it writes: the `num_bins` most frequent values are kept, every other value is
renamed to `"Other"`; the branch chooses the smaller membership set. -/
def add_column_other (xs : List String) (num_bins : ℕ) : List String :=
  let vc := value_counts xs
  let top_num := vc.take num_bins
  let bottom_num := vc.drop num_bins
  if top_num.length < bottom_num.length then xs.map (keepStrategy top_num)
  else xs.map (collapseStrategy bottom_num)

/-! ## The discretizer (`find_percentiles`, source lines 61-89)

Continuous columns are `List (Option ℚ)` (`none` is a missing value).
`np_quantile` is `np.quantile` with its default linear interpolation;
`np_digitize` is `np.digitize` on monotone `bins`, which equals
`np.searchsorted(bins, x, side="right")`, i.e. the number of boundaries `≤ x`.
`fmt2` is the `"%.2f"` format; the exact value is rounded half away from zero
where Python rounds the underlying binary double half to even — the difference
affects only the text of tick labels and no claim below. -/

def fmt2 (q : ℚ) : String :=
  let a := if q < 0 then qneg q else q
  let n : ℕ := ((qadd (qmul a 100) (mkRat 1 2)).floor).toNat
  (if q < 0 then "-" else "") ++ toString (n / 100) ++ "." ++
    (if n % 100 < 10 then "0" else "") ++ toString (n % 100)

def np_quantile (xs : List ℚ) (q : ℚ) : ℚ :=
  let s := List.insertionSort (· ≤ ·) xs
  let n := s.length
  let h := qmul q (qofNat (n - 1))
  let i0 := h.floor.toNat
  let g := qsub h (qofNat i0)
  qadd (s.getD i0 0) (qmul g (qsub (s.getD (min (i0 + 1) (n - 1)) 0) (s.getD i0 0)))

/-- The `num_bins + 1` quantile boundaries, with the first widened by `-0.01`
and the last by `+0.01` (source lines 73-76). -/
def find_percentiles_boundaries (nn : List ℚ) (num_bins : ℕ) : List ℚ :=
  let ps := (List.range (num_bins + 1)).map (fun i => np_quantile nn (mkRat (Int.ofNat i) num_bins))
  let ps := ps.set 0 (qsub (ps.getD 0 0) (mkRat 1 100))
  ps.set (ps.length - 1) (qadd (ps.getD (ps.length - 1) 0) (mkRat 1 100))

def np_digitize (x : ℚ) (bins : List ℚ) : ℕ := bins.countP (fun b => decide (b ≤ x))

/-- `ticks_name` (source line 81): interval labels between consecutive boundaries. -/
def percTicksNames (ps : List ℚ) : List String :=
  (List.range (ps.length - 1)).map
    (fun i => "[" ++ fmt2 (ps.getD i 0) ++ ", " ++ fmt2 (ps.getD (i + 1) 0) ++ "]")

/-- Python list indexing: negative indices count from the end, out-of-range
raises `IndexError` (source line 82 indexes `ticks_name[x - 1]`). -/
def pyGetStr (l : List String) (i : ℤ) : Except String String :=
  if 0 ≤ i then
    if i.toNat < l.length then Except.ok (l.getD i.toNat "")
    else Except.error "IndexError: list index out of range"
  else
    let j := (l.length : ℤ) + i
    if 0 ≤ j ∧ j.toNat < l.length then Except.ok (l.getD j.toNat "")
    else Except.error "IndexError: list index out of range"

/-- `find_percentiles` (source lines 61-89), at the level of the per-row label
column it produces.  The source computes labels on the `dropna()` rows and
merges them back by index alignment, assigning `"Other"` to the missing rows;
row-wise this is exactly the mapping below.  `num_bins = 0` hits the Python
`ZeroDivisionError` in `i/num_bins`; an all-missing column reaches
`np.quantile` with an empty array, which raises. -/
def find_percentiles (xs : List (Option ℚ)) (num_bins : ℕ) : Except String (List String) :=
  let data_no_nan := xs.filterMap id
  if num_bins = 0 then Except.error "ZeroDivisionError: division by zero"
  else if data_no_nan.isEmpty then
    Except.error "IndexError: cannot do a non-empty take from an empty axes."
  else
    let ps := find_percentiles_boundaries data_no_nan num_bins
    let ticks := percTicksNames ps
    xs.mapM (fun x =>
      match x with
      | none => Except.ok "Other"
      | some v => pyGetStr ticks ((np_digitize v ps : ℤ) - 1))

/-- `remove_nans` (source lines 91-93) on an object column: missing values
become `"Other"`, everything else is kept verbatim. -/
def remove_nans (xs : List (Option String)) : List String :=
  xs.map (fun x => x.getD "Other")

instance {ε α : Type} [DecidableEq ε] [DecidableEq α] : DecidableEq (Except ε α) :=
  fun a b =>
    match a, b with
    | Except.ok x, Except.ok y => decidable_of_iff (x = y) (by simp)
    | Except.error x, Except.error y => decidable_of_iff (x = y) (by simp)
    | Except.ok _, Except.error _ => isFalse (fun h => by cases h)
    | Except.error _, Except.ok _ => isFalse (fun h => by cases h)

/-! ## Datasets -/

/-- A pandas column: numeric dtype or object dtype, `none` is a missing value.
An all-missing numeric column (all-NaN float column) is `nums` of `none`s. -/
inductive Col : Type where
  | nums : List (Option ℚ) → Col
  | strs : List (Option String) → Col
deriving DecidableEq

def Col.length : Col → ℕ
  | Col.nums xs => xs.length
  | Col.strs xs => xs.length

structure DataFrame : Type where
  cols : List (String × Col)
deriving DecidableEq

instance : Inhabited DataFrame := ⟨⟨[]⟩⟩

def DataFrame.get (df : DataFrame) (name : String) : Option Col :=
  (df.cols.find? (fun p => p.1 == name)).map (fun p => p.2)

/-- Axis binning: the dtype dispatch of `calculate_ticks_and_norm` lines
195-204 (`dtype != "object"` selects `find_percentiles`, otherwise
`remove_nans`). -/
def binAxis : Col → ℕ → Except String (List String)
  | Col.nums xs, num_bins => find_percentiles xs num_bins
  | Col.strs xs, _ => Except.ok (remove_nans xs)

/-! ## Ticks, contingency grid, normalization and orchestration
(`calculate_ticks_and_norm`, source lines 156-275) -/

/-- `sorted(data_part[col].unique().tolist())`. -/
def sortedTicks (ls : List String) : List String := pySorted (uniqFirst ls)

/-- `{label: i for i, label in enumerate(ticks)}` as an association list. -/
def l2i (ts : List String) : List (String × ℕ) := ts.enum.map (fun p => (p.2, p.1))

/-- `data_part[[xcol, ycol]].value_counts().reset_index(name="cnt")`: the
distinct (x-label, y-label) pairs with multiplicities, ordered by decreasing
count (stable on first appearance; the pandas tie order is unspecified and no
theorem below depends on it). -/
def value_counts_pairs (ps : List (String × String)) : List ((String × String) × ℕ) :=
  List.insertionSort (fun a b => b.2 ≤ a.2) ((uniqFirst ps).map (fun k => (k, ps.count k)))

def get2d (g : List (List ℚ)) (i j : ℕ) : ℚ := (g.getD i []).getD j 0

def set2d (g : List (List ℚ)) (i j : ℕ) (v : ℚ) : List (List ℚ) :=
  g.set i ((g.getD i []).set j v)

/-- The grid-filling loop of lines 224-226: start from `np.zeros` and write
each occurrence count at `(label2index_y[ylabel], label2index_x[xlabel])`. -/
def gridOf (occ : List ((String × String) × ℕ)) (xticks yticks : List String) :
    List (List ℚ) :=
  occ.foldl
    (fun g e =>
      set2d g (yticks.findIdx (fun t => t == e.1.2)) (xticks.findIdx (fun t => t == e.1.1))
        (qofNat e.2))
    (List.replicate yticks.length (List.replicate xticks.length 0))

/-- `grid.sum(axis=0)` (per-column sums). -/
def colSums (g : List (List ℚ)) : List ℚ :=
  (List.range ((g.headD []).length)).map (fun j => qsum (g.map (fun r => r.getD j 0)))

/-- `grid.sum(axis=1)` (per-row sums). -/
def rowSums (g : List (List ℚ)) : List ℚ := g.map qsum

/-- `grid.sum()`. -/
def gridTotal (g : List (List ℚ)) : ℚ := qsum (g.map qsum)

/-- `grid / grid.sum(axis=0).reshape(1, -1)`. -/
def divByColSums (g : List (List ℚ)) : List (List ℚ) :=
  let cs := colSums g
  g.map (fun r => r.enum.map (fun p => qdiv p.2 (cs.getD p.1 0)))

/-- `grid / grid.sum(axis=1).reshape(-1, 1)`. -/
def divByRowSums (g : List (List ℚ)) : List (List ℚ) :=
  g.map (fun r => let s := qsum r; r.map (fun x => qdiv x s))

/-- `grid / grid.sum()`. -/
def divByTotal (g : List (List ℚ)) : List (List ℚ) :=
  let t := gridTotal g
  g.map (fun r => r.map (fun x => qdiv x t))

/-- `normalize_1d` (source lines 57-58): `arr/(arr.sum() + 1e-7)`. -/
def normalize_1d (l : List ℚ) : List ℚ :=
  let s := qadd (qsum l) (mkRat 1 10000000)
  l.map (fun x => qdiv x s)

/-- The baseline marginal `second_part`, retaining its NumPy shape:
`reshape(-1, 1)` is a column vector, `reshape(1, -1)` a row vector. -/
inductive Baseline : Type where
  | colvec : List ℚ → Baseline
  | rowvec : List ℚ → Baseline
deriving DecidableEq

/-- `first_part - second_part` with NumPy broadcasting. -/
def combineSub (g : List (List ℚ)) : Baseline → List (List ℚ)
  | Baseline.colvec v => g.enum.map (fun pr => pr.2.map (fun x => qsub x (v.getD pr.1 0)))
  | Baseline.rowvec v => g.map (fun r => r.enum.map (fun p => qsub p.2 (v.getD p.1 0)))

/-- `first_part / second_part` with NumPy broadcasting (every divisor produced
by `normalize_1d` on a reachable marginal is nonzero). -/
def combineDiv (g : List (List ℚ)) : Baseline → List (List ℚ)
  | Baseline.colvec v => g.enum.map (fun pr => pr.2.map (fun x => qdiv x (v.getD pr.1 0)))
  | Baseline.rowvec v => g.map (fun r => r.enum.map (fun p => qdiv p.2 (v.getD p.1 0)))

def npOfGrid (g : List (List ℚ)) (rows cols : ℕ) : NpArr :=
  ⟨rows, cols, fun i j => RF.val (get2d g i j)⟩

def npOfBaseline : Baseline → NpArr
  | Baseline.colvec v => ⟨v.length, 1, fun i _ => RF.val (v.getD i 0)⟩
  | Baseline.rowvec v => ⟨1, v.length, fun _ j => RF.val (v.getD j 0)⟩

def npRowVec (v : List ℚ) : NpArr := ⟨1, v.length, fun _ j => RF.val (v.getD j 0)⟩

def npColVec (v : List ℚ) : NpArr := ⟨v.length, 1, fun i _ => RF.val (v.getD i 0)⟩

def npScalar (q : ℚ) : NpArr := ⟨1, 1, fun _ _ => RF.val q⟩

def BoolArr.toLists (m : BoolArr) : List (List Bool) :=
  (List.range m.rows).map (fun i => (List.range m.cols).map (fun j => m.ent i j))

/-- `arr[:, xticks_ids_take]` on a rational grid. -/
def takeCols (g : List (List ℚ)) (ids : List ℕ) : List (List ℚ) :=
  g.map (fun r => ids.map (fun j => r.getD j 0))

/-- `arr[:, xticks_ids_take]` on a boolean mask. -/
def takeColsB (g : List (List Bool)) (ids : List ℕ) : List (List Bool) :=
  g.map (fun r => ids.map (fun j => r.getD j false))

/-- The tuple returned by `calculate_ticks_and_norm` (source lines 270-275). -/
structure CalcOut : Type where
  ret_grid : List (List ℚ)
  ttest_result : Option (List (List Bool))
  xticks_shown : List String
  yticks_name : List String
  label2index_x : List (String × ℕ)
  label2index_y : List (String × ℕ)
  occurences : List ((String × String) × ℕ)
  grid : List (List ℚ)
deriving DecidableEq

instance : Inhabited CalcOut := ⟨⟨[], none, [], [], [], [], [], []⟩⟩

/-- The final packaging of lines 270-275. -/
def package (ret_grid : List (List ℚ)) (tt : Option (List (List Bool)))
    (xticks_name : List String) (xticks_ids_take : List ℕ) (yticks_name : List String)
    (occurences : List ((String × String) × ℕ)) (grid : List (List ℚ))
    (do_not_show_x : List String) : CalcOut :=
  { ret_grid := takeCols ret_grid xticks_ids_take
    ttest_result := tt.map (fun m => takeColsB m xticks_ids_take)
    xticks_shown := xticks_name.filter (fun x => !(do_not_show_x.contains x))
    yticks_name := yticks_name
    label2index_x := l2i xticks_name
    label2index_y := l2i yticks_name
    occurences := occurences
    grid := grid }

/-- Lines 192-211: select and copy the two columns, bin each axis by dtype,
and reduce cardinality when the number of unique labels exceeds `bins + 1`. -/
def calc_bins (data : DataFrame) (xcol ycol : String) (num_xbins num_ybins : ℕ) :
    Except String (List String × List String) :=
  match data.get xcol with
  | none => Except.error "KeyError"
  | some cx =>
    match data.get ycol with
    | none => Except.error "KeyError"
    | some cy =>
      match binAxis cx num_xbins with
      | Except.error e => Except.error e
      | Except.ok lx =>
        match binAxis cy num_ybins with
        | Except.error e => Except.error e
        | Except.ok ly =>
          Except.ok
            (if num_xbins + 1 < (uniqFirst lx).length then add_column_other lx num_xbins
             else lx,
             if num_ybins + 1 < (uniqFirst ly).length then add_column_other ly num_ybins
             else ly)

/-- Lines 213-275 of `calculate_ticks_and_norm`, from the fully binned label
columns to the returned tuple.  The branch structure is flattened by the value
of `compare_default_value`, observably equal to the source flow: the source
assigns `second_part` only under `normalize` in {"first", "second"}, so
`compare_default_value` in {"divide", "subtract"} with any other `normalize`
raises `UnboundLocalError` at the use of `second_part`; an unrecognized
`compare_default_value` raises the `RuntimeError` of line 254; an unrecognized
`normalize` with `compare_default_value = "none"` silently returns the
unnormalized grid (the bare `else` of lines 237-238). -/
def calc_tail (sf : ℚ → ℚ) (lx ly : List String) (normalize compare_default_value : String)
    (alpha : ℚ) (mht : Bool) (do_not_show_x : List String) : Except String CalcOut :=
  let xticks_name := sortedTicks lx
  let xticks_ids_take :=
    (xticks_name.enum.filter (fun p => !(do_not_show_x.contains p.2))).map (fun p => p.1)
  let yticks_name := sortedTicks ly
  let occurences := value_counts_pairs (lx.zip ly)
  let grid := gridOf occurences xticks_name yticks_name
  let first_part :=
    if normalize = "first" then divByColSums grid
    else if normalize = "second" then divByRowSums grid
    else if normalize = "both" then divByTotal grid
    else grid
  if compare_default_value = "none" then
    Except.ok (package first_part none xticks_name xticks_ids_take yticks_name
      occurences grid do_not_show_x)
  else if compare_default_value = "divide" ∨ compare_default_value = "subtract" then
    if normalize = "first" then
      let second_part := Baseline.colvec (normalize_1d (rowSums grid))
      let ret_grid :=
        if compare_default_value = "divide" then combineDiv first_part second_part
        else combineSub first_part second_part
      let num1 := npRowVec (colSums grid)
      let num2 := npScalar (gridTotal grid)
      let tt := ttest_bernoulli_ind sf
        (npOfGrid first_part yticks_name.length xticks_name.length)
        (npOfBaseline second_part) num1 num2 mht alpha
      Except.ok (package ret_grid (some tt.toLists) xticks_name xticks_ids_take yticks_name
        occurences grid do_not_show_x)
    else if normalize = "second" then
      let second_part := Baseline.rowvec (normalize_1d (colSums grid))
      let ret_grid :=
        if compare_default_value = "divide" then combineDiv first_part second_part
        else combineSub first_part second_part
      let num1 := npColVec (rowSums grid)
      let num2 := npScalar (gridTotal grid)
      let tt := ttest_bernoulli_ind sf
        (npOfGrid first_part yticks_name.length xticks_name.length)
        (npOfBaseline second_part) num1 num2 mht alpha
      Except.ok (package ret_grid (some tt.toLists) xticks_name xticks_ids_take yticks_name
        occurences grid do_not_show_x)
    else Except.error "UnboundLocalError: cannot access local variable second_part"
  else Except.error "RuntimeError: Unknown value for compare_default_value"

/-- `calculate_ticks_and_norm` (source lines 156-275). -/
def calculate_ticks_and_norm (sf : ℚ → ℚ) (data : DataFrame) (xcol ycol : String)
    (num_xbins num_ybins : ℕ) (normalize compare_default_value : String)
    (alpha : ℚ) (mht : Bool) (do_not_show_x : List String) : Except String CalcOut :=
  match calc_bins data xcol ycol num_xbins num_ybins with
  | Except.error e => Except.error e
  | Except.ok p =>
      calc_tail sf p.1 p.2 normalize compare_default_value alpha mht do_not_show_x

/-- Whether an `Except` computation returned a value. -/
def isOkB {α : Type} (e : Except String α) : Bool :=
  match e with
  | Except.ok _ => true
  | Except.error _ => false

/-- The configurations on which `calculate_ticks_and_norm` completes without a
configuration error: `compare_default_value = "none"` (any `normalize`), or a
baseline comparison with `normalize` in {"first", "second"}. -/
def ConfigOK (normalize compare_default_value : String) : Prop :=
  compare_default_value = "none" ∨
    ((compare_default_value = "divide" ∨ compare_default_value = "subtract") ∧
      (normalize = "first" ∨ normalize = "second"))

/-- Restriction of a `calculate_ticks_and_norm` output to the x-labels outside
the exclusion set `S`: the grid and mask keep the columns whose x-label is not
in `S`, and the shown tick list drops the members of `S`. -/
def restrictOut (S : List String) (o : CalcOut) : CalcOut :=
  let ids := (o.xticks_shown.enum.filter (fun p => !(S.contains p.2))).map (fun p => p.1)
  { o with
    ret_grid := takeCols o.ret_grid ids
    ttest_result := o.ttest_result.map (fun m => takeColsB m ids)
    xticks_shown := o.xticks_shown.filter (fun x => !(S.contains x)) }

/-! ## Object-level mutation model

The source mutates pandas frames in place (`data[col_bin] = ...`,
`data[col + "_other"] = ...`) but `calculate_ticks_and_norm` works on
`data_part = data[[xcol, ycol]].copy()`, a fresh object.  The store model
makes object identity explicit: frames live in a `Store` (a heap indexed by
allocation order) and every in-place column write of the source is an explicit
store write at the index of the allocated copy. -/

/-- Write a column in place: overwrite if the name exists, else append. -/
def DataFrame.setCol (df : DataFrame) (name : String) (c : Col) : DataFrame :=
  if df.cols.any (fun p => p.1 == name) then
    ⟨df.cols.map (fun p => if p.1 == name then (name, c) else p)⟩
  else ⟨df.cols ++ [(name, c)]⟩

/-- `data[[xcol, ycol]].copy()`: a fresh frame holding copies of the selected
columns. -/
def copyCols (df : DataFrame) (names : List String) : DataFrame :=
  ⟨names.filterMap (fun n => (df.get n).map (fun c => (n, c)))⟩

/-- Lines 196-204 at the frame level: `find_percentiles` writes the labels as
the new in-place column `col + "_bin"`; `remove_nans` overwrites `col`. -/
def binAxis_df (df : DataFrame) (col : String) (num_bins : ℕ) :
    Except String (String × DataFrame) :=
  match df.get col with
  | none => Except.error "KeyError"
  | some (Col.nums xs) =>
      match find_percentiles xs num_bins with
      | Except.error e => Except.error e
      | Except.ok labels =>
          Except.ok (col ++ "_bin", df.setCol (col ++ "_bin") (Col.strs (labels.map some)))
  | some (Col.strs xs) =>
      Except.ok (col, df.setCol col (Col.strs ((remove_nans xs).map some)))

/-- `add_column_other` (lines 139-153) at the frame level: the renamed labels
are written under the new in-place column `col + "_other"`.  Only object
columns reach the reducer in the pipeline (the binning stage produces label
columns); the numeric case is out of scope here. -/
def add_column_other_df (df : DataFrame) (col : String) (num_bins : ℕ) :
    Except String (String × DataFrame) :=
  match df.get col with
  | some (Col.strs xs) =>
      Except.ok (col ++ "_other",
        df.setCol (col ++ "_other")
          (Col.strs ((add_column_other (xs.map (fun o => o.getD "")) num_bins).map some)))
  | _ => Except.error "TypeError"

/-- Lines 206-211 at the frame level: reduce cardinality when the unique count
exceeds `num_bins + 1`. -/
def reduce_df (df : DataFrame) (col : String) (num_bins : ℕ) :
    Except String (String × DataFrame) :=
  match df.get col with
  | some (Col.strs xs) =>
      if num_bins + 1 < (uniqFirst (xs.map (fun o => o.getD ""))).length then
        add_column_other_df df col num_bins
      else Except.ok (col, df)
  | _ => Except.error "TypeError"

abbrev Store : Type := List DataFrame

/-- Read a label column of a finished `data_part` frame. -/
def labelsOf (df : DataFrame) (col : String) : List String :=
  match df.get col with
  | some (Col.strs xs) => xs.map (fun o => o.getD "")
  | _ => []

/-- `calculate_ticks_and_norm` with the mutation of `data_part` made explicit:
the copy is allocated at a fresh store index, every in-place write of the
pipeline targets that index, and the final tuple is computed from the finished
copy.  The caller frame at `dataRef` is only read. -/
def calculate_ticks_and_norm_st (sf : ℚ → ℚ) (store : Store) (dataRef : ℕ)
    (xcol ycol : String) (num_xbins num_ybins : ℕ)
    (normalize compare_default_value : String) (alpha : ℚ) (mht : Bool)
    (do_not_show_x : List String) : Except String (Store × CalcOut) :=
  let data := store.getD dataRef ⟨[]⟩
  let partRef := store.length
  let s1 := store ++ [copyCols data [xcol, ycol]]
  match binAxis_df (s1.getD partRef ⟨[]⟩) xcol num_xbins with
  | Except.error e => Except.error e
  | Except.ok r1 =>
    let s2 := s1.set partRef r1.2
    match binAxis_df (s2.getD partRef ⟨[]⟩) ycol num_ybins with
    | Except.error e => Except.error e
    | Except.ok r2 =>
      let s3 := s2.set partRef r2.2
      match reduce_df (s3.getD partRef ⟨[]⟩) r1.1 num_xbins with
      | Except.error e => Except.error e
      | Except.ok r3 =>
        let s4 := s3.set partRef r3.2
        match reduce_df (s4.getD partRef ⟨[]⟩) r2.1 num_ybins with
        | Except.error e => Except.error e
        | Except.ok r4 =>
          let s5 := s4.set partRef r4.2
          let final := s5.getD partRef ⟨[]⟩
          match calc_tail sf (labelsOf final r3.1) (labelsOf final r4.1) normalize
              compare_default_value alpha mht do_not_show_x with
          | Except.error e => Except.error e
          | Except.ok out => Except.ok (s5, out)

/-! ## Concrete instances used by counterexamples and witnesses -/

/-- A concrete survival-function parameter (any antitone stand-in works; the
counterexamples below are arranged so that only finitely many of its values
matter). -/
def sfW : ℚ → ℚ := fun z => if z ≤ 0 then mkRat 1 2 else mkRat 1 100

/-- A small frame with two object columns and a missing value on each axis. -/
def dfW : DataFrame :=
  ⟨[("x", Col.strs [some "a", some "b", none]), ("y", Col.strs [some "u", none, some "u"])]⟩

/-- A frame whose `x` column is numeric and entirely missing (an all-NaN float
column has numeric dtype, so it is routed to `find_percentiles`). -/
def dfAllMissing : DataFrame :=
  ⟨[("x", Col.nums [none]), ("y", Col.strs [some "a"])]⟩

/-- Proportion/sample arrays realizing the shapes `calculate_ticks_and_norm`
passes for `normalize="first"`: a 2×2 proportion grid, a 2×1 baseline, a 1×2
`num1` and a scalar `num2`. -/
def theta1W : NpArr := ⟨2, 2, fun _ _ => RF.val (mkRat 1 2)⟩

def theta2W : NpArr := ⟨2, 1, fun _ _ => RF.val 0⟩

def num1W : NpArr := ⟨1, 2, fun _ _ => RF.val 1⟩

def num2W : NpArr := ⟨1, 1, fun _ _ => RF.val 1⟩

/-- 1×1 arrays with `theta1 = 0`, `theta2 = 1` and one sample each: the
zero-variance cell with unequal proportions. -/
def theta1Z : NpArr := ⟨1, 1, fun _ _ => RF.val 0⟩

def theta2Z : NpArr := ⟨1, 1, fun _ _ => RF.val 1⟩

def numZ : NpArr := ⟨1, 1, fun _ _ => RF.val 1⟩

/-- The column of the cardinality-reduction counterexample: counts 7, 4, 3, 2
for the labels a, b, c, d. -/
def colC5 : List String :=
  ["a", "a", "a", "a", "a", "a", "a", "b", "b", "b", "b", "c", "c", "c", "d", "d"]


/-! ## Lemmas -/

theorem qneg_eq (a : ℚ) : qneg a = -a := by
  rw [qneg, Rat.divInt_eq_div]
  push_cast
  rw [neg_div, Rat.num_div_den]

theorem qadd_eq (a b : ℚ) : qadd a b = a + b := by
  have ha : ((a.den : ℚ)) ≠ 0 := Nat.cast_ne_zero.mpr a.den_nz
  have hb : ((b.den : ℚ)) ≠ 0 := Nat.cast_ne_zero.mpr b.den_nz
  rw [qadd, Rat.divInt_eq_div]
  push_cast
  conv_rhs => rw [← Rat.num_div_den a, ← Rat.num_div_den b]
  rw [div_add_div _ _ ha hb]
  ring_nf

theorem qsub_eq (a b : ℚ) : qsub a b = a - b := by
  rw [qsub, qadd_eq, qneg_eq, sub_eq_add_neg]

theorem qmul_eq (a b : ℚ) : qmul a b = a * b := by
  rw [qmul, Rat.divInt_eq_div]
  push_cast
  conv_rhs => rw [← Rat.num_div_den a, ← Rat.num_div_den b]
  rw [div_mul_div_comm]

theorem qdiv_eq (a b : ℚ) (hb : b ≠ 0) : qdiv a b = a / b := by
  have ha : ((a.den : ℚ)) ≠ 0 := Nat.cast_ne_zero.mpr a.den_nz
  have hbden : ((b.den : ℚ)) ≠ 0 := Nat.cast_ne_zero.mpr b.den_nz
  have hbnum : ((b.num : ℚ)) ≠ 0 := by
    exact_mod_cast Rat.num_ne_zero.mpr hb
  have ha2 : (a.num : ℚ) = a * (a.den : ℚ) := (div_eq_iff ha).mp (Rat.num_div_den a)
  have hb2 : (b.num : ℚ) = b * (b.den : ℚ) := (div_eq_iff hbden).mp (Rat.num_div_den b)
  rw [qdiv, Rat.divInt_eq_div]
  push_cast
  rw [div_eq_div_iff (mul_ne_zero ha hbnum) hb]
  rw [ha2, hb2]
  ring

theorem qofNat_eq (n : ℕ) : qofNat n = (n : ℚ) := by
  rw [qofNat, Rat.mkRat_eq_div]
  push_cast
  exact div_one _

theorem qsum_nil : qsum [] = 0 := rfl

theorem qsum_cons (a : ℚ) (l : List ℚ) : qsum (a :: l) = a + qsum l := by
  show qadd a (qsum l) = a + qsum l
  rw [qadd_eq]

theorem qsqrt_zero : qsqrt 0 = 0 := by decide

theorem mem_uniqFirstAux {α : Type} [DecidableEq α] (seen : List α) (l : List α) (a : α) :
    a ∈ uniqFirstAux seen l ↔ a ∈ l ∧ a ∉ seen := by
  induction l generalizing seen with
  | nil => simp [uniqFirstAux]
  | cons x rest ih =>
      by_cases hx : x ∈ seen
      · simp only [uniqFirstAux, if_pos hx, ih, List.mem_cons]
        constructor
        · rintro ⟨h1, h2⟩
          exact ⟨Or.inr h1, h2⟩
        · rintro ⟨h1 | h1, h2⟩
          · exact absurd (h1 ▸ hx) h2
          · exact ⟨h1, h2⟩
      · simp only [uniqFirstAux, if_neg hx, List.mem_cons, ih]
        constructor
        · rintro (rfl | ⟨h1, h2⟩)
          · exact ⟨Or.inl rfl, hx⟩
          · exact ⟨Or.inr h1, fun hs => h2 (Or.inr hs)⟩
        · rintro ⟨rfl | h1, h2⟩
          · exact Or.inl rfl
          · by_cases hax : a = x
            · exact Or.inl hax
            · exact Or.inr ⟨h1, fun hs => hs.elim (fun he => hax he) (fun hs2 => h2 hs2)⟩

theorem mem_uniqFirst {α : Type} [DecidableEq α] (xs : List α) (a : α) :
    a ∈ uniqFirst xs ↔ a ∈ xs := by
  simp [uniqFirst, mem_uniqFirstAux]

theorem nodup_uniqFirstAux {α : Type} [DecidableEq α] (seen : List α) (l : List α) :
    (uniqFirstAux seen l).Nodup := by
  induction l generalizing seen with
  | nil => simp [uniqFirstAux]
  | cons x rest ih =>
      by_cases hx : x ∈ seen
      · simpa [uniqFirstAux, if_pos hx] using ih seen
      · simp only [uniqFirstAux, if_neg hx, List.nodup_cons]
        refine ⟨fun hmem => ?_, ih (x :: seen)⟩
        exact ((mem_uniqFirstAux _ _ _).mp hmem).2 (List.mem_cons_self _ _)

theorem nodup_uniqFirst {α : Type} [DecidableEq α] (xs : List α) : (uniqFirst xs).Nodup :=
  nodup_uniqFirstAux [] xs

theorem value_counts_nodup (xs : List String) : (value_counts xs).Nodup :=
  ((List.perm_insertionSort _ _).nodup_iff).mpr (nodup_uniqFirst xs)

theorem mem_value_counts (xs : List String) (a : String) :
    a ∈ value_counts xs ↔ a ∈ xs := by
  rw [value_counts, List.mem_insertionSort, mem_uniqFirst]

/-- On every value that actually occurs in the column, the two renaming
strategies agree: each such value sits in exactly one of the disjoint halves
of the count-sorted distinct-value list. -/
theorem keepStrategy_eq_collapseStrategy_of_mem (xs : List String) (num_bins : ℕ)
    (x : String) (hx : x ∈ xs) :
    keepStrategy ((value_counts xs).take num_bins) x =
      collapseStrategy ((value_counts xs).drop num_bins) x := by
  have hvc : x ∈ value_counts xs := (mem_value_counts xs x).mpr hx
  have hsplit := List.take_append_drop num_bins (value_counts xs)
  have hnd := value_counts_nodup xs
  rw [← hsplit] at hvc hnd
  have hdisj := (List.nodup_append.mp hnd).2.2
  rcases List.mem_append.mp hvc with htop | hbot
  · have hnb : x ∉ (value_counts xs).drop num_bins := fun hcon => hdisj htop hcon
    simp [collapseStrategy, keepStrategy, htop, hnb]
  · have hnt : x ∉ (value_counts xs).take num_bins := fun hcon => hdisj hcon hbot
    simp [collapseStrategy, keepStrategy, hbot, hnt]

/-- `add_column_other` always equals the keep-strategy map, whichever branch
the size comparison selects. -/
theorem add_column_other_eq_keepMap (xs : List String) (num_bins : ℕ) :
    add_column_other xs num_bins =
      xs.map (keepStrategy ((value_counts xs).take num_bins)) := by
  rw [add_column_other]
  split
  · rfl
  · exact (List.map_congr_left
      (fun x hx => (keepStrategy_eq_collapseStrategy_of_mem xs num_bins x hx))).symm

/-! ## Claim theorems -/

/-- C9: over any input column, renaming through membership in the keep set of
the `B` most frequent labels and renaming through membership in the collapse
set of the remaining labels produce identical label columns. -/
theorem add_column_other_strategies_agree (xs : List String) (num_bins : ℕ) :
    xs.map (keepStrategy ((value_counts xs).take num_bins)) =
      xs.map (collapseStrategy ((value_counts xs).drop num_bins)) :=
  List.map_congr_left (fun x hx => keepStrategy_eq_collapseStrategy_of_mem xs num_bins x hx)

/-- C2 (counterexample): with the multiple-hypothesis flag set,
`ttest_bernoulli_ind` does not multiply the p-values by the total number of
cells being tested.  At a 2×2 proportion grid with the 1×2 sample-size array
the call sites pass, the code multiplies by `num1.size = 2` and flags the cell
significant at `alpha = 1/25`, while the cell-count correction (factor 4)
would not. -/
theorem ttest_mht_cells_counterexample :
    (ttest_bernoulli_ind sfW theta1W theta2W num1W num2W true (mkRat 1 25)).ent 0 0 = true ∧
      (ttest_bernoulli_ind_claimed sfW theta1W theta2W num1W num2W true
        (mkRat 1 25)).ent 0 0 = false := by
  constructor
  · decide
  · decide

/-- C2 (amended): with `mht` set, `ttest_bernoulli_ind` multiplies every
per-cell p-value by `num1.size` (the number of entries of the sample-size
array `num1` — the number of grid columns resp. rows at the call sites, not
the total cell count), caps the product at 1.0, and only then compares it with
`alpha`. -/
theorem ttest_mht_multiplies_by_num1_size (sf : ℚ → ℚ)
    (theta1 theta2 num1 num2 : NpArr) (alpha : ℚ) (i j : ℕ) :
    (ttest_bernoulli_ind sf theta1 theta2 num1 num2 true alpha).ent i j =
      RF.leB
        (RF.minimum (RF.val 1)
          (RF.mul ((ttest_pvalue sf theta1 theta2 num1 num2).ent i j)
            (RF.val (NpArr.size num1 : ℚ))))
        (RF.val alpha) := rfl

/-- C4 (counterexample): a cell with a zero pooled standard deviation and a
non-finite z-score that `ttest_bernoulli_ind` flags as significant: with
`theta1 = 0`, `theta2 = 1` and one sample on each side the deviation is zero,
the z-score is `-inf`, the p-value is `2 * sf(inf) = 0 <= alpha`, and the mask
entry is `true`, not `false`. -/
theorem ttest_zero_std_flagged_significant :
    (ttest_std theta1Z theta2Z numZ numZ).ent 0 0 = RF.val 0 ∧
      (ttest_Z theta1Z theta2Z numZ numZ).ent 0 0 = RF.ninf ∧
      (ttest_bernoulli_ind sfW theta1Z theta2Z numZ numZ false (mkRat 1 20)).ent 0 0 = true ∧
      (ttest_bernoulli_ind sfW theta1Z theta2Z numZ numZ true (mkRat 1 20)).ent 0 0 = true := by
  refine ⟨by decide, by decide, by decide, by decide⟩

/-- C4 (amended): at every cell where the pooled standard deviation is zero
AND the two proportions agree (so the z-score is `0/0 = NaN`),
`ttest_bernoulli_ind` marks the cell not significant, for every `alpha`, both
values of `mht`, and every survival function.  (When the proportions differ at
a zero-deviation cell the z-score is `±inf` and the cell is flagged
significant, as the counterexample shows.) -/
theorem ttest_zero_std_equal_thetas_not_significant (sf : ℚ → ℚ)
    (theta1 theta2 num1 num2 : NpArr) (mht : Bool) (alpha : ℚ) (i j : ℕ)
    (hstd : (ttest_std theta1 theta2 num1 num2).bent i j = RF.val 0)
    (hdiff : (NpArr.map2 RF.sub theta1 theta2).bent i j = RF.val 0) :
    (ttest_bernoulli_ind sf theta1 theta2 num1 num2 mht alpha).ent i j = false := by
  have hZ : (ttest_Z theta1 theta2 num1 num2).ent i j = RF.nan := by
    show RF.div ((NpArr.map2 RF.sub theta1 theta2).bent i j)
      ((ttest_std theta1 theta2 num1 num2).bent i j) = RF.nan
    rw [hdiff, hstd]
    rfl
  have hp : (ttest_pvalue sf theta1 theta2 num1 num2).ent i j = RF.nan := by
    show RF.mul (RF.val 2)
      (sfRF sf (RF.abs ((ttest_Z theta1 theta2 num1 num2).ent i j))) = RF.nan
    rw [hZ]
    rfl
  cases mht with
  | false =>
      show RF.leB ((ttest_pvalue sf theta1 theta2 num1 num2).ent i j) (RF.val alpha) = false
      rw [hp]
      rfl
  | true =>
      show RF.leB
        (RF.minimum (RF.val 1)
          (RF.mul ((ttest_pvalue sf theta1 theta2 num1 num2).ent i j)
            (RF.val (NpArr.size num1 : ℚ))))
        (RF.val alpha) = false
      rw [hp]
      rfl

/-- Witness for the zero-deviation, equal-proportions cell: both proportions
0 with one sample each. -/
theorem ttest_zero_std_equal_thetas_not_significant_witness :
    (ttest_std theta1Z theta1Z numZ numZ).bent 0 0 = RF.val 0 ∧
      (NpArr.map2 RF.sub theta1Z theta1Z).bent 0 0 = RF.val 0 ∧
      (ttest_bernoulli_ind sfW theta1Z theta1Z numZ numZ true (mkRat 1 20)).ent 0 0 = false :=
  ⟨by decide, by decide,
    ttest_zero_std_equal_thetas_not_significant sfW theta1Z theta1Z numZ numZ true
      (mkRat 1 20) 0 0 (by decide) (by decide)⟩

/-- C1 (counterexample): an unrecognized `normalize` value does not make
`calculate_ticks_and_norm` fail.  With `normalize = "weird"` and
`compare_default_value = "none"` the call silently falls back to the
unnormalized grid and returns it. -/
theorem calc_invalid_normalize_silently_ok :
    isOkB (calculate_ticks_and_norm (fun _ => 0) dfW "x" "y" 10 10 "weird" "none"
      (mkRat 1 20) false []) = true := by decide

/-- C1 (amended): an unrecognized `compare_default_value` (with any
`normalize`) makes `calculate_ticks_and_norm` fail fast with the descriptive
`RuntimeError` of line 254, on every input whose binning stage succeeds; an
unrecognized `normalize` alone is NOT rejected (see the counterexample). -/
theorem calc_invalid_compare_fails_fast (sf : ℚ → ℚ) (data : DataFrame)
    (xcol ycol : String) (num_xbins num_ybins : ℕ)
    (normalize compare_default_value : String) (alpha : ℚ) (mht : Bool)
    (do_not_show_x : List String) (p : List String × List String)
    (hpre : calc_bins data xcol ycol num_xbins num_ybins = Except.ok p)
    (h1 : compare_default_value ≠ "none") (h2 : compare_default_value ≠ "divide")
    (h3 : compare_default_value ≠ "subtract") :
    calculate_ticks_and_norm sf data xcol ycol num_xbins num_ybins normalize
      compare_default_value alpha mht do_not_show_x =
      Except.error "RuntimeError: Unknown value for compare_default_value" := by
  unfold calculate_ticks_and_norm
  rw [hpre]
  show calc_tail sf p.1 p.2 normalize compare_default_value alpha mht do_not_show_x = _
  have h23 : ¬(compare_default_value = "divide" ∨ compare_default_value = "subtract") := by
    rintro (h | h)
    · exact h2 h
    · exact h3 h
  unfold calc_tail
  simp only [if_neg h1, if_neg h23]

/-- Witness: a concrete frame and an unrecognized `compare_default_value`. -/
theorem calc_invalid_compare_fails_fast_witness :
    calc_bins dfW "x" "y" 10 10 = Except.ok (["a", "b", "Other"], ["u", "Other", "u"]) ∧
      calculate_ticks_and_norm (fun _ => 0) dfW "x" "y" 10 10 "first" "weird"
        (mkRat 1 20) false [] =
        Except.error "RuntimeError: Unknown value for compare_default_value" :=
  ⟨by decide,
    calc_invalid_compare_fails_fast (fun _ => 0) dfW "x" "y" 10 10 "first" "weird"
      (mkRat 1 20) false [] (["a", "b", "Other"], ["u", "Other", "u"]) (by decide)
      (by decide) (by decide) (by decide)⟩

/-- The count-sorted distinct-value list is sorted by decreasing count. -/
theorem value_counts_pairwise (xs : List String) :
    List.Pairwise (fun a b => xs.count b ≤ xs.count a) (value_counts xs) := by
  letI : IsTotal String (fun a b => xs.count b ≤ xs.count a) :=
    ⟨fun a b => Nat.le_total (xs.count b) (xs.count a)⟩
  letI : IsTrans String (fun a b => xs.count b ≤ xs.count a) :=
    ⟨fun _ _ _ hab hbc => le_trans hbc hab⟩
  exact List.sorted_insertionSort _ (uniqFirst xs)

theorem length_value_counts (xs : List String) :
    (value_counts xs).length = (uniqFirst xs).length :=
  List.length_insertionSort _ _

/-- Every label of a reduced column is a kept label or `"Other"`. -/
theorem mem_add_column_other (xs : List String) (B : ℕ) (y : String)
    (hy : y ∈ add_column_other xs B) :
    y ∈ (value_counts xs).take B ∨ y = "Other" := by
  rw [add_column_other_eq_keepMap] at hy
  rcases List.mem_map.mp hy with ⟨x, _, rfl⟩
  by_cases hxt : x ∈ (value_counts xs).take B
  · exact Or.inl (by simp only [keepStrategy, if_pos hxt]; exact hxt)
  · exact Or.inr (by simp [keepStrategy, hxt])

/-- C5 (counterexample): `add_column_other` is not idempotent.  On a column
with label counts 7, 4, 3, 2 and budget 2, the first pass collapses the two
least frequent labels into `"Other"` (total 5); on the second pass `"Other"`
(5) outranks `b` (4), so `b` is collapsed as well and the per-row assignment
changes. -/
theorem add_column_other_not_idempotent :
    add_column_other (add_column_other colC5 2) 2 ≠ add_column_other colC5 2 := by decide

/-- C5 (amended): applying `add_column_other` twice with the same budget `B`
equals applying it once, PROVIDED every non-`"Other"` label of the once-reduced
column is strictly more frequent there than `"Other"` — i.e. the collapsed
mass does not overtake any kept label.  (Without this proviso the claim fails,
see the counterexample.) -/
theorem add_column_other_idempotent_of_dominated (xs : List String) (B : ℕ)
    (H : ∀ l ∈ add_column_other xs B, l ≠ "Other" →
      (add_column_other xs B).count "Other" < (add_column_other xs B).count l) :
    add_column_other (add_column_other xs B) B = add_column_other xs B := by
  set M := add_column_other xs B with hM
  -- the distinct labels of M number at most B + 1: at most B kept plus "Other"
  have hDsub : ∀ y ∈ uniqFirst M, y ∈ "Other" :: (value_counts xs).take B := by
    intro y hy
    rcases mem_add_column_other xs B y ((mem_uniqFirst M y).mp hy) with h | h
    · exact List.mem_cons_of_mem _ h
    · exact h ▸ List.mem_cons_self _ _
  have hDnodup : (uniqFirst M).Nodup := nodup_uniqFirst M
  have hS2len : (value_counts M).length = (uniqFirst M).length := length_value_counts M
  have hS2nodup : (value_counts M).Nodup := value_counts_nodup M
  have hS2pair := value_counts_pairwise M
  -- non-"Other" distinct labels of M number at most B
  have hnonOther :
      ((uniqFirst M).filter (fun z => z ≠ "Other")).length ≤ B := by
    have hsub : ((uniqFirst M).filter (fun z => z ≠ "Other")) ⊆
        (value_counts xs).take B := by
      intro y hy
      rcases List.mem_filter.mp hy with ⟨hyD, hyO⟩
      rcases mem_add_column_other xs B y ((mem_uniqFirst M y).mp hyD) with h | h
      · exact h
      · exact absurd h (by simpa using hyO)
    have := (List.subperm_of_subset (hDnodup.filter _) hsub).length_le
    calc ((uniqFirst M).filter (fun z => z ≠ "Other")).length
        ≤ ((value_counts xs).take B).length := this
      _ ≤ B := by
          rw [List.length_take]
          exact min_le_left _ _
  have hDlen : (uniqFirst M).length ≤ B + 1 := by
    have hsub2 : uniqFirst M ⊆ "Other" :: ((uniqFirst M).filter (fun z => z ≠ "Other")) := by
      intro y hy
      by_cases hyO : y = "Other"
      · exact hyO ▸ List.mem_cons_self _ _
      · exact List.mem_cons_of_mem _ (List.mem_filter.mpr ⟨hy, by simpa using hyO⟩)
    have h2 := (List.subperm_of_subset hDnodup hsub2).length_le
    have h3 : ("Other" :: ((uniqFirst M).filter (fun z => z ≠ "Other"))).length =
        ((uniqFirst M).filter (fun z => z ≠ "Other")).length + 1 := rfl
    omega
  -- every label of M is fixed by the second keep-strategy map
  have hfix : ∀ y ∈ M, keepStrategy ((value_counts M).take B) y = y := by
    intro y hy
    by_cases hyO : y = "Other"
    · subst hyO
      simp [keepStrategy, ite_self]
    · -- y appears among the sorted distinct labels of M
      have hyS2 : y ∈ value_counts M := (mem_value_counts M y).mpr hy
      rw [← List.take_append_drop B (value_counts M)] at hyS2
      rcases List.mem_append.mp hyS2 with hyt | hyd
      · simp [keepStrategy, hyt]
      · exfalso
        -- the dropped part has at most one element
        have hdlen : ((value_counts M).drop B).length ≤ 1 := by
          rw [List.length_drop, hS2len]
          omega
        have hdne : ((value_counts M).drop B) ≠ [] := List.ne_nil_of_mem hyd
        have hd1 : ((value_counts M).drop B).length = 1 := by
          rcases Nat.lt_or_ge ((value_counts M).drop B).length 1 with h | h
          · exact absurd (List.eq_nil_of_length_eq_zero (by omega)) hdne
          · omega
        rcases List.length_eq_one.mp hd1 with ⟨z, hz⟩
        have hyz : y = z := by
          rw [hz] at hyd
          simpa using hyd
        -- "Other" must occur among the distinct labels of M, else nothing is dropped
        have hOS2 : "Other" ∈ value_counts M := by
          by_contra hOn
          have hall : ∀ w ∈ uniqFirst M, decide (w ≠ "Other") = true := by
            intro w hw
            have hwO : w ≠ "Other" := by
              intro hwe
              exact hOn ((mem_value_counts M "Other").mpr
                ((mem_uniqFirst M "Other").mp (hwe ▸ hw)))
            simpa using hwO
          have hfeq : (uniqFirst M).filter (fun z2 => z2 ≠ "Other") = uniqFirst M :=
            List.filter_eq_self.mpr hall
          have hlen : (uniqFirst M).length ≤ B := by
            rw [← hfeq]
            exact hnonOther
          have hzero : ((value_counts M).drop B).length = 0 := by
            rw [List.length_drop, hS2len]
            omega
          exact hdne (List.eq_nil_of_length_eq_zero hzero)
        rw [← List.take_append_drop B (value_counts M)] at hOS2
        rcases List.mem_append.mp hOS2 with hOt | hOd
        · -- "Other" among the kept labels: it outranks y, contradicting H
          have hpair := hS2pair
          rw [← List.take_append_drop B (value_counts M)] at hpair
          have hrel := (List.pairwise_append.mp hpair).2.2 _ hOt _ hyd
          exact absurd hrel (not_le.mpr (H y hy hyO))
        · -- "Other" is the single dropped element, i.e. y itself
          rw [hz] at hOd
          simp only [List.mem_singleton] at hOd
          exact hyO (hyz.trans hOd.symm)
  rw [add_column_other_eq_keepMap M B]
  exact (List.map_congr_left hfix).trans (List.map_id M)

/-- Witness: a column whose kept labels strictly dominate the collapsed mass;
there the reducer is idempotent. -/
theorem add_column_other_idempotent_of_dominated_witness :
    (∀ l ∈ add_column_other ["a", "a", "a", "b", "b", "c"] 2, l ≠ "Other" →
      (add_column_other ["a", "a", "a", "b", "b", "c"] 2).count "Other" <
        (add_column_other ["a", "a", "a", "b", "b", "c"] 2).count l) ∧
      add_column_other (add_column_other ["a", "a", "a", "b", "b", "c"] 2) 2 =
        add_column_other ["a", "a", "a", "b", "b", "c"] 2 :=
  ⟨by decide, add_column_other_idempotent_of_dominated ["a", "a", "a", "b", "b", "c"] 2
    (by decide)⟩

/-! ### Quantile and discretization lemmas (C8) -/

theorem mapM_ok_of_forall {α β : Type} (f : α → Except String β) (g : α → β) :
    ∀ l : List α, (∀ a ∈ l, f a = Except.ok (g a)) → l.mapM f = Except.ok (l.map g)
  | [], _ => by rw [List.mapM_nil]; rfl
  | a :: l, h => by
      rw [List.mapM_cons, h a (List.mem_cons_self a l),
        mapM_ok_of_forall f g l (fun b hb => h b (List.mem_cons_of_mem a hb))]
      rfl

theorem np_quantile_zero (nn : List ℚ) :
    np_quantile nn 0 = (List.insertionSort (· ≤ ·) nn).getD 0 0 := by
  simp only [np_quantile]
  have h1 : qmul 0 (qofNat ((List.insertionSort (· ≤ ·) nn).length - 1)) = 0 := by
    rw [qmul_eq]
    exact zero_mul _
  rw [h1]
  have h2 : ((0 : ℚ)).floor = 0 := by decide
  rw [h2]
  have h3 : qsub 0 (qofNat (Int.toNat 0)) = 0 := by
    rw [qsub_eq, qofNat_eq]
    simp
  rw [h3]
  rw [qmul_eq, zero_mul, qadd_eq, add_zero]
  rfl

theorem qofNat_floor (m : ℕ) : (qofNat m).floor = (m : ℤ) := by
  have h : qofNat m = ((m : ℤ) : ℚ) := by
    rw [qofNat_eq]
    push_cast
    rfl
  rw [h, Rat.floor_def']
  simp

theorem np_quantile_one (nn : List ℚ) (hne : nn ≠ []) :
    np_quantile nn 1 =
      (List.insertionSort (· ≤ ·) nn).getD
        ((List.insertionSort (· ≤ ·) nn).length - 1) 0 := by
  simp only [np_quantile]
  have hlen : 0 < (List.insertionSort (· ≤ ·) nn).length := by
    rw [List.length_insertionSort]
    exact List.length_pos.mpr hne
  have h1 : qmul 1 (qofNat ((List.insertionSort (· ≤ ·) nn).length - 1)) =
      qofNat ((List.insertionSort (· ≤ ·) nn).length - 1) := by
    rw [qmul_eq]
    exact one_mul _
  rw [h1, qofNat_floor]
  have h2 : (Int.toNat ((List.insertionSort (· ≤ ·) nn).length - 1 : ℕ)) =
      (List.insertionSort (· ≤ ·) nn).length - 1 := Int.toNat_natCast _
  rw [h2]
  have h3 : qsub (qofNat ((List.insertionSort (· ≤ ·) nn).length - 1))
      (qofNat ((List.insertionSort (· ≤ ·) nn).length - 1)) = 0 := by
    rw [qsub_eq, sub_self]
  rw [h3]
  have h4 : min ((List.insertionSort (· ≤ ·) nn).length - 1 + 1)
      ((List.insertionSort (· ≤ ·) nn).length - 1) =
      (List.insertionSort (· ≤ ·) nn).length - 1 := by omega
  rw [h4]
  rw [qmul_eq, zero_mul, qadd_eq, add_zero]

/-- The sorted data bounds every element between its first and last entries. -/
theorem sorted_bounds (nn : List ℚ) (v : ℚ) (hv : v ∈ nn) :
    (List.insertionSort (· ≤ ·) nn).getD 0 0 ≤ v ∧
      v ≤ (List.insertionSort (· ≤ ·) nn).getD
        ((List.insertionSort (· ≤ ·) nn).length - 1) 0 := by
  have hsort : List.Sorted (· ≤ ·) (List.insertionSort (· ≤ ·) nn) :=
    List.sorted_insertionSort _ nn
  have hvs : v ∈ List.insertionSort (· ≤ ·) nn := (List.mem_insertionSort _).mpr hv
  rcases List.mem_iff_getElem.mp hvs with ⟨k, hk, hkv⟩
  have hlen : 0 < (List.insertionSort (· ≤ ·) nn).length :=
    lt_of_le_of_lt (Nat.zero_le k) hk
  constructor
  · rw [List.getD_eq_getElem _ 0 hlen, ← hkv]
    have h := @List.Sorted.rel_get_of_le ℚ (· ≤ ·) _ _ hsort ⟨0, hlen⟩ ⟨k, hk⟩
      (Fin.mk_le_mk.mpr (Nat.zero_le k))
    simpa using h
  · rw [List.getD_eq_getElem _ 0 (by omega), ← hkv]
    have h := @List.Sorted.rel_get_of_le ℚ (· ≤ ·) _ _ hsort ⟨k, hk⟩
      ⟨(List.insertionSort (· ≤ ·) nn).length - 1, by omega⟩ (Fin.mk_le_mk.mpr (by omega))
    simpa using h

theorem find_percentiles_boundaries_length (nn : List ℚ) (B : ℕ) :
    (find_percentiles_boundaries nn B).length = B + 1 := by
  simp [find_percentiles_boundaries]

theorem find_percentiles_boundaries_head (nn : List ℚ) (B : ℕ) (hB : 1 ≤ B) :
    (find_percentiles_boundaries nn B).getD 0 0 =
      qsub (np_quantile nn (mkRat 0 B)) (mkRat 1 100) := by
  simp only [find_percentiles_boundaries]
  have hlen0 : ((List.range (B + 1)).map
      (fun i => np_quantile nn (mkRat (Int.ofNat i) B))).length = B + 1 := by simp
  rw [List.length_set, hlen0]
  rw [List.getD_eq_getElem _ 0 (by simp)]
  rw [List.getElem_set_ne (by omega) _]
  rw [List.getElem_set_self (by simp)]
  congr 2
  rw [List.getD_eq_getElem _ 0 (by rw [hlen0]; omega)]
  rw [List.getElem_map]
  congr 1
  rw [List.getElem_range]
  rfl

theorem find_percentiles_boundaries_last (nn : List ℚ) (B : ℕ) (hB : 1 ≤ B) :
    (find_percentiles_boundaries nn B).getD B 0 =
      qadd (np_quantile nn (mkRat (Int.ofNat B) B)) (mkRat 1 100) := by
  simp only [find_percentiles_boundaries]
  have hlen0 : ((List.range (B + 1)).map
      (fun i => np_quantile nn (mkRat (Int.ofNat i) B))).length = B + 1 := by simp
  simp only [List.length_set, hlen0, Nat.add_sub_cancel]
  rw [List.getD_eq_getElem _ 0 (by simp)]
  rw [List.getElem_set_self (by simp)]
  congr 2
  rw [List.getD_eq_getElem _ 0 (by simp)]
  rw [List.getElem_set_ne (by omega) _]
  rw [List.getElem_map]
  congr 1
  rw [List.getElem_range]

theorem mkRat_zero_eq (B : ℕ) : (mkRat 0 B : ℚ) = 0 := by
  rw [Rat.mkRat_eq_div]
  simp

theorem mkRat_self_eq (B : ℕ) (hB : 1 ≤ B) : (mkRat (Int.ofNat B) B : ℚ) = 1 := by
  rw [Rat.mkRat_eq_div]
  have hBne : (B : ℚ) ≠ 0 := by
    exact_mod_cast Nat.one_le_iff_ne_zero.mp hB
  exact div_self hBne

/-- Every non-missing value is counted by at least one and at most `B` of the
widened boundaries, i.e. `np.digitize` lands in `[1, B]`. -/
theorem np_digitize_bounds (xs : List (Option ℚ)) (B : ℕ) (hB : 1 ≤ B) (v : ℚ)
    (hv : v ∈ xs.filterMap id) :
    1 ≤ np_digitize v (find_percentiles_boundaries (xs.filterMap id) B) ∧
      np_digitize v (find_percentiles_boundaries (xs.filterMap id) B) ≤ B := by
  have hne : xs.filterMap id ≠ [] := List.ne_nil_of_mem hv
  have hbounds := sorted_bounds (xs.filterMap id) v hv
  have hlen := find_percentiles_boundaries_length (xs.filterMap id) B
  have hc : (0 : ℚ) < mkRat 1 100 := by decide
  constructor
  · have hhead : (find_percentiles_boundaries (xs.filterMap id) B).getD 0 0 ≤ v := by
      rw [find_percentiles_boundaries_head _ B hB, mkRat_zero_eq, np_quantile_zero, qsub_eq]
      linarith [hbounds.1]
    have hmem : (find_percentiles_boundaries (xs.filterMap id) B).getD 0 0 ∈
        find_percentiles_boundaries (xs.filterMap id) B := by
      rw [List.getD_eq_getElem _ 0 (by omega)]
      exact List.getElem_mem _
    exact List.countP_pos_iff.mpr ⟨_, hmem, by simpa using hhead⟩
  · have hlast : ¬ ((find_percentiles_boundaries (xs.filterMap id) B).getD B 0 ≤ v) := by
      rw [find_percentiles_boundaries_last _ B hB, mkRat_self_eq B hB,
        np_quantile_one _ hne, qadd_eq]
      have := hbounds.2
      intro hcon
      linarith
    by_contra hcon
    push_neg at hcon
    have hle : np_digitize v (find_percentiles_boundaries (xs.filterMap id) B) ≤
        (find_percentiles_boundaries (xs.filterMap id) B).length :=
      List.countP_le_length _
    have heq : np_digitize v (find_percentiles_boundaries (xs.filterMap id) B) =
        (find_percentiles_boundaries (xs.filterMap id) B).length := by omega
    have hall := List.countP_eq_length.mp heq
    have hmemB : (find_percentiles_boundaries (xs.filterMap id) B).getD B 0 ∈
        find_percentiles_boundaries (xs.filterMap id) B := by
      rw [List.getD_eq_getElem _ 0 (by omega)]
      exact List.getElem_mem _
    have := hall _ hmemB
    simp only [decide_eq_true_eq] at this
    exact hlast this

/-- C8: on a continuous column with at least one non-missing value and bin
budget `B ≥ 1`, `find_percentiles` succeeds; the generated tick list has
exactly `B` interval labels; every non-missing value is assigned (exactly) one
of them, and every missing value is assigned `"Other"`. -/
theorem find_percentiles_coverage (xs : List (Option ℚ)) (B : ℕ)
    (hB : 1 ≤ B) (hne : xs.filterMap id ≠ []) :
    ∃ labels, find_percentiles xs B = Except.ok labels ∧
      labels.length = xs.length ∧
      (percTicksNames (find_percentiles_boundaries (xs.filterMap id) B)).length = B ∧
      (∀ i, i < xs.length → xs.getD i none = none → labels.getD i "" = "Other") ∧
      (∀ i v, i < xs.length → xs.getD i none = some v →
        labels.getD i "" ∈
          percTicksNames (find_percentiles_boundaries (xs.filterMap id) B)) := by
  have hticklen :
      (percTicksNames (find_percentiles_boundaries (xs.filterMap id) B)).length = B := by
    simp [percTicksNames, find_percentiles_boundaries_length]
  refine ⟨xs.map (fun x => match x with
    | none => "Other"
    | some v => (percTicksNames (find_percentiles_boundaries (xs.filterMap id) B)).getD
        (np_digitize v (find_percentiles_boundaries (xs.filterMap id) B) - 1) ""),
    ?_, by simp, hticklen, ?_, ?_⟩
  · show find_percentiles xs B = _
    unfold find_percentiles
    rw [if_neg (by omega)]
    rw [if_neg (by simp only [List.isEmpty_iff]; exact hne)]
    apply mapM_ok_of_forall
    intro a ha
    cases a with
    | none => rfl
    | some v =>
        have hv : v ∈ xs.filterMap id := List.mem_filterMap.mpr ⟨some v, ha, rfl⟩
        have hd := np_digitize_bounds xs B hB v hv
        show pyGetStr _ _ = _
        unfold pyGetStr
        rw [if_pos (by omega)]
        have htn : ((np_digitize v (find_percentiles_boundaries (xs.filterMap id) B) : ℤ)
            - 1).toNat =
            np_digitize v (find_percentiles_boundaries (xs.filterMap id) B) - 1 := by
          omega
        rw [htn]
        rw [if_pos (by omega)]
  · intro i hi hnone
    rw [List.getD_eq_getElem _ _ (by simpa using hi), List.getElem_map]
    rw [List.getD_eq_getElem _ _ hi] at hnone
    rw [hnone]
  · intro i v hi hsome
    rw [List.getD_eq_getElem _ _ (by simpa using hi), List.getElem_map]
    rw [List.getD_eq_getElem _ _ hi] at hsome
    rw [hsome]
    have hv : v ∈ xs.filterMap id :=
      List.mem_filterMap.mpr ⟨some v, by rw [← hsome]; exact List.getElem_mem hi, rfl⟩
    have hd := np_digitize_bounds xs B hB v hv
    show (percTicksNames (find_percentiles_boundaries (xs.filterMap id) B)).getD _ "" ∈ _
    rw [List.getD_eq_getElem _ _ (by omega)]
    exact List.getElem_mem _

/-- Witness: the column `[0, missing]` with one bin. -/
theorem find_percentiles_coverage_witness :
    1 ≤ 1 ∧ ([some (0 : ℚ), none].filterMap id ≠ []) ∧
      (∃ labels, find_percentiles [some (0 : ℚ), none] 1 = Except.ok labels ∧
        labels.length = 2 ∧
        (percTicksNames (find_percentiles_boundaries
          ([some (0 : ℚ), none].filterMap id) 1)).length = 1 ∧
        (∀ i, i < 2 → [some (0 : ℚ), none].getD i none = none →
          labels.getD i "" = "Other") ∧
        (∀ i v, i < 2 → [some (0 : ℚ), none].getD i none = some v →
          labels.getD i "" ∈ percTicksNames (find_percentiles_boundaries
            ([some (0 : ℚ), none].filterMap id) 1))) :=
  ⟨le_refl 1, by decide, find_percentiles_coverage [some (0 : ℚ), none] 1 (le_refl 1)
    (by decide)⟩

/-! ### Grid shape and all-missing axes (C6) -/

theorem uniqFirstAux_eq_nil {α : Type} [DecidableEq α] (seen : List α) (l : List α)
    (h : ∀ x ∈ l, x ∈ seen) : uniqFirstAux seen l = [] := by
  induction l with
  | nil => rfl
  | cons x rest ih =>
      have hx : x ∈ seen := h x (List.mem_cons_self x rest)
      simp only [uniqFirstAux, if_pos hx]
      exact ih (fun y hy => h y (List.mem_cons_of_mem x hy))

theorem uniqFirst_const {α : Type} [DecidableEq α] (l : List α) (c : α)
    (hall : ∀ x ∈ l, x = c) (hne : l ≠ []) : uniqFirst l = [c] := by
  cases l with
  | nil => exact absurd rfl hne
  | cons x rest =>
      have hx : x = c := hall x (List.mem_cons_self x rest)
      subst hx
      show uniqFirstAux [] (x :: rest) = [x]
      simp only [uniqFirstAux, List.not_mem_nil, if_neg (fun h => h)]
      rw [uniqFirstAux_eq_nil]
      intro y hy
      rw [hall y (List.mem_cons_of_mem x hy)]
      exact List.mem_cons_self x []

theorem set2d_length (g : List (List ℚ)) (i j : ℕ) (v : ℚ) :
    (set2d g i j v).length = g.length := List.length_set _ _ _

theorem set2d_shape (g : List (List ℚ)) (i j : ℕ) (v : ℚ) (C : ℕ)
    (h : ∀ k, (hk : k < g.length) → g[k].length = C) :
    ∀ k, (hk : k < (set2d g i j v).length) → (set2d g i j v)[k].length = C := by
  intro k hk
  have hk2 : k < g.length := by
    rw [set2d_length] at hk
    exact hk
  by_cases hik : i = k
  · subst hik
    show ((g.set i ((g.getD i []).set j v))[i]).length = C
    rw [List.getElem_set_self (by rw [List.length_set]; exact hk2)]
    rw [List.length_set, List.getD_eq_getElem _ _ hk2]
    exact h i hk2
  · show ((g.set i ((g.getD i []).set j v))[k]).length = C
    rw [List.getElem_set_ne hik]
    exact h k hk2

theorem gridOf_shape (occ : List ((String × String) × ℕ)) (xt yt : List String) :
    (gridOf occ xt yt).length = yt.length ∧
      ∀ k, (hk : k < (gridOf occ xt yt).length) → (gridOf occ xt yt)[k].length = xt.length := by
  unfold gridOf
  suffices h : ∀ (g : List (List ℚ)), g.length = yt.length →
      (∀ k, (hk : k < g.length) → g[k].length = xt.length) →
      (occ.foldl (fun g e =>
        set2d g (yt.findIdx (fun t => t == e.1.2)) (xt.findIdx (fun t => t == e.1.1))
          (qofNat e.2)) g).length = yt.length ∧
      ∀ k, (hk : k < (occ.foldl (fun g e =>
        set2d g (yt.findIdx (fun t => t == e.1.2)) (xt.findIdx (fun t => t == e.1.1))
          (qofNat e.2)) g).length) →
        (occ.foldl (fun g e =>
          set2d g (yt.findIdx (fun t => t == e.1.2)) (xt.findIdx (fun t => t == e.1.1))
            (qofNat e.2)) g)[k].length = xt.length by
    refine h _ (by simp) ?_
    intro k hk
    rw [List.getElem_replicate]
    exact List.length_replicate _ _
  induction occ with
  | nil => exact fun g h1 h2 => ⟨h1, h2⟩
  | cons e rest ih =>
      intro g h1 h2
      exact ih _ (by rw [set2d_length]; exact h1) (set2d_shape _ _ _ _ _ h2)

/-- In every configuration of `ConfigOK`, `calc_tail` succeeds, and the
tick/index/debug fields of the output are as packaged. -/
theorem calc_tail_ok_fields (sf : ℚ → ℚ) (lx ly : List String)
    (normalize compare_default_value : String) (alpha : ℚ) (mht : Bool)
    (dns : List String) (hcfg : ConfigOK normalize compare_default_value) :
    ∃ out, calc_tail sf lx ly normalize compare_default_value alpha mht dns =
        Except.ok out ∧
      out.xticks_shown = (sortedTicks lx).filter (fun x => !(dns.contains x)) ∧
      out.label2index_x = l2i (sortedTicks lx) ∧
      out.yticks_name = sortedTicks ly ∧
      out.grid = gridOf (value_counts_pairs (lx.zip ly)) (sortedTicks lx) (sortedTicks ly) := by
  rcases hcfg with hnone | ⟨hcmp, hnorm⟩
  · subst hnone
    unfold calc_tail
    rw [if_pos rfl]
    exact ⟨_, rfl, rfl, rfl, rfl, rfl⟩
  · rcases hnorm with hfirst | hsecond
    · subst hfirst
      rcases hcmp with hdiv | hsub
      · subst hdiv
        unfold calc_tail
        rw [if_neg (by decide), if_pos (Or.inl rfl), if_pos rfl]
        exact ⟨_, rfl, rfl, rfl, rfl, rfl⟩
      · subst hsub
        unfold calc_tail
        rw [if_neg (by decide), if_pos (Or.inr rfl), if_pos rfl]
        exact ⟨_, rfl, rfl, rfl, rfl, rfl⟩
    · subst hsecond
      rcases hcmp with hdiv | hsub
      · subst hdiv
        unfold calc_tail
        rw [if_neg (by decide), if_pos (Or.inl rfl), if_neg (by decide), if_pos rfl]
        exact ⟨_, rfl, rfl, rfl, rfl, rfl⟩
      · subst hsub
        unfold calc_tail
        rw [if_neg (by decide), if_pos (Or.inr rfl), if_neg (by decide), if_pos rfl]
        exact ⟨_, rfl, rfl, rfl, rfl, rfl⟩

/-- C6 (counterexample): an all-missing numeric axis column DOES make
`calculate_ticks_and_norm` fail.  An all-NaN column has numeric dtype, so it is
routed to `find_percentiles`, whose `np.quantile` call raises on the empty
`dropna()` result. -/
theorem calc_allmissing_numeric_fails :
    isOkB (calculate_ticks_and_norm (fun _ => 0) dfAllMissing "x" "y" 10 10 "first" "none"
      (mkRat 1 20) false []) = false := by decide

/-- C6 (amended): for a fully missing CATEGORICAL (object-dtype) axis column,
`calculate_ticks_and_norm` does not fail on any `ConfigOK` configuration: the
axis collapses to the single bin label `"Other"`, and the output grid has
exactly one column on that axis.  (A fully missing numeric column instead
crashes inside `np.quantile`, see the counterexample.) -/
theorem calc_allmissing_categorical_axis (sf : ℚ → ℚ) (data : DataFrame)
    (xcol ycol : String) (num_xbins num_ybins : ℕ)
    (normalize compare_default_value : String) (alpha : ℚ) (mht : Bool)
    (xs ys : List (Option String))
    (hx : data.get xcol = some (Col.strs xs)) (hy : data.get ycol = some (Col.strs ys))
    (hall : ∀ o ∈ xs, o = none) (hne : xs ≠ [])
    (hcfg : ConfigOK normalize compare_default_value) :
    ∃ out, calculate_ticks_and_norm sf data xcol ycol num_xbins num_ybins normalize
        compare_default_value alpha mht [] = Except.ok out ∧
      out.xticks_shown = ["Other"] ∧
      out.label2index_x = [("Other", 0)] ∧
      ∀ r ∈ out.grid, r.length = 1 := by
  have hlx : remove_nans xs = List.replicate xs.length "Other" := by
    unfold remove_nans
    calc xs.map (fun x => x.getD "Other") = xs.map (fun _ => "Other") := by
          apply List.map_congr_left
          intro a ha
          rw [hall a ha]
          rfl
      _ = List.replicate xs.length "Other" := List.map_const xs "Other"
  have huniq : uniqFirst (remove_nans xs) = ["Other"] := by
    apply uniqFirst_const
    · intro x hx2
      rw [hlx] at hx2
      exact List.eq_of_mem_replicate hx2
    · rw [hlx]
      intro hcon
      have := congrArg List.length hcon
      simp at this
      exact hne this
  have hticks : sortedTicks (remove_nans xs) = ["Other"] := by
    unfold sortedTicks pySorted
    rw [huniq]
    rfl
  have hnored : ¬ (num_xbins + 1 < (uniqFirst (remove_nans xs)).length) := by
    rw [huniq]
    simp
  have hbins : calc_bins data xcol ycol num_xbins num_ybins = Except.ok (remove_nans xs,
      if num_ybins + 1 < (uniqFirst (remove_nans ys)).length
      then add_column_other (remove_nans ys) num_ybins else remove_nans ys) := by
    unfold calc_bins
    rw [hx, hy]
    show Except.ok _ = _
    rw [if_neg hnored]
  rcases calc_tail_ok_fields sf (remove_nans xs)
      (if num_ybins + 1 < (uniqFirst (remove_nans ys)).length
       then add_column_other (remove_nans ys) num_ybins else remove_nans ys)
      normalize compare_default_value alpha mht [] hcfg with
    ⟨out, hout, hf1, hf2, hf3, hf4⟩
  refine ⟨out, ?_, ?_, ?_, ?_⟩
  · unfold calculate_ticks_and_norm
    rw [hbins]
    exact hout
  · rw [hf1, hticks]
    rfl
  · rw [hf2, hticks]
    rfl
  · intro r hr
    rw [hf4, hticks] at hr
    rcases List.mem_iff_getElem.mp hr with ⟨k, hk, hkr⟩
    rw [← hkr]
    have := (gridOf_shape (value_counts_pairs ((remove_nans xs).zip _)) ["Other"] _).2 k hk
    simpa using this

/-- Witness: a frame whose `x` column is object-dtype and entirely missing. -/
theorem calc_allmissing_categorical_axis_witness :
    (DataFrame.mk [("x", Col.strs [none, none]), ("y", Col.strs [some "u", some "w"])]).get
        "x" = some (Col.strs [none, none]) ∧
      ConfigOK "first" "none" ∧
      (∃ out, calculate_ticks_and_norm (fun _ => 0)
          (DataFrame.mk [("x", Col.strs [none, none]), ("y", Col.strs [some "u", some "w"])])
          "x" "y" 10 10 "first" "none" (mkRat 1 20) false [] = Except.ok out ∧
        out.xticks_shown = ["Other"] ∧
        out.label2index_x = [("Other", 0)] ∧
        ∀ r ∈ out.grid, r.length = 1) :=
  ⟨by decide, Or.inl rfl,
    calc_allmissing_categorical_axis (fun _ => 0)
      (DataFrame.mk [("x", Col.strs [none, none]), ("y", Col.strs [some "u", some "w"])])
      "x" "y" 10 10 "first" "none" (mkRat 1 20) false [none, none]
      [some "u", some "w"] (by decide) (by decide) (by decide) (by decide) (Or.inl rfl)⟩

/-! ### Exclusion-set lemmas (C7) -/

theorem brDim_self (a : ℕ) : brDim a a = a := ite_self a

theorem brDim_one_right (a : ℕ) : brDim a 1 = a := by
  unfold brDim
  split
  · exact (by assumption : a = 1).symm
  · rfl

theorem brDim_one_left (a : ℕ) : brDim 1 a = a := rfl

theorem ids_empty_eq_range (xt : List String) :
    ((xt.enum.filter (fun p => !(List.contains ([] : List String) p.2))).map
      (fun p => p.1)) = List.range xt.length := by
  have h : xt.enum.filter (fun p => !(List.contains ([] : List String) p.2)) = xt.enum :=
    List.filter_eq_self.mpr (fun _ _ => rfl)
  rw [h]
  exact List.enum_map_fst xt

theorem filter_empty_eq_self (xt : List String) :
    xt.filter (fun x => !(List.contains ([] : List String) x)) = xt :=
  List.filter_eq_self.mpr (fun _ _ => rfl)

theorem map_range_getD (r : List ℚ) (C : ℕ) (h : r.length = C) :
    (List.range C).map (fun j => r.getD j 0) = r := by
  apply List.ext_getElem
  · simp [h]
  · intro i h1 h2
    simp only [List.getElem_map, List.getElem_range]
    exact List.getD_eq_getElem r 0 h2

theorem map_range_getD_bool (r : List Bool) (C : ℕ) (h : r.length = C) :
    (List.range C).map (fun j => r.getD j false) = r := by
  apply List.ext_getElem
  · simp [h]
  · intro i h1 h2
    simp only [List.getElem_map, List.getElem_range]
    exact List.getD_eq_getElem r false h2

theorem takeCols_range (g : List (List ℚ)) (C : ℕ) (h : ∀ r ∈ g, r.length = C) :
    takeCols g (List.range C) = g := by
  unfold takeCols
  calc g.map (fun r => (List.range C).map (fun j => r.getD j 0))
      = g.map id := List.map_congr_left (fun r hr => map_range_getD r C (h r hr))
    _ = g := List.map_id g

theorem takeColsB_range (g : List (List Bool)) (C : ℕ) (h : ∀ r ∈ g, r.length = C) :
    takeColsB g (List.range C) = g := by
  unfold takeColsB
  calc g.map (fun r => (List.range C).map (fun j => r.getD j false))
      = g.map id := List.map_congr_left (fun r hr => map_range_getD_bool r C (h r hr))
    _ = g := List.map_id g

/-- Restricting the full (empty-exclusion) output to the labels outside `S`
gives exactly the `S`-packaged output, provided every grid and mask row spans
all the columns. -/
theorem package_restrict (RET : List (List ℚ)) (TT : Option (List (List Bool)))
    (xt yt : List String) (occ : List ((String × String) × ℕ))
    (grid : List (List ℚ)) (S : List String)
    (hRET : ∀ r ∈ RET, r.length = xt.length)
    (hTT : ∀ m, TT = some m → ∀ r ∈ m, r.length = xt.length) :
    package RET TT xt ((xt.enum.filter (fun p => !(S.contains p.2))).map (fun p => p.1))
        yt occ grid S =
      restrictOut S (package RET TT xt
        ((xt.enum.filter (fun p => !(List.contains ([] : List String) p.2))).map
          (fun p => p.1)) yt occ grid []) := by
  unfold package restrictOut
  simp only [ids_empty_eq_range, filter_empty_eq_self]
  rw [takeCols_range RET xt.length hRET]
  cases TT with
  | none => rfl
  | some m =>
      simp only [Option.map_some']
      rw [takeColsB_range m xt.length (hTT m rfl)]

theorem toLists_row_len (m : BoolArr) (C : ℕ) (h : 0 < m.rows → m.cols = C) :
    ∀ r ∈ m.toLists, r.length = C := by
  intro r hr
  rcases List.mem_map.mp hr with ⟨i, hi, rfl⟩
  have hrows : 0 < m.rows := by
    have := List.mem_range.mp hi
    omega
  simp [h hrows]

theorem colSums_length (g : List (List ℚ)) : (colSums g).length = (g.headD []).length := by
  simp [colSums]

theorem colSums_length_of_shape (g : List (List ℚ)) (C : ℕ) (hpos : 0 < g.length)
    (h : ∀ k, (hk : k < g.length) → g[k].length = C) : (colSums g).length = C := by
  rw [colSums_length]
  cases g with
  | nil => simp at hpos
  | cons r t =>
      show r.length = C
      exact h 0 hpos

theorem rowSums_length (g : List (List ℚ)) : (rowSums g).length = g.length := by
  simp [rowSums]

theorem normalize_1d_length (l : List ℚ) : (normalize_1d l).length = l.length := by
  simp [normalize_1d]

/-- Shapes of the significance mask in the `normalize = "first"` wiring. -/
theorem ttest_dims_first (sf : ℚ → ℚ) (fp : List (List ℚ)) (R C : ℕ)
    (v cs : List ℚ) (t : ℚ) (mht : Bool) (alpha : ℚ) (hv : v.length = R) :
    (ttest_bernoulli_ind sf (npOfGrid fp R C) (npOfBaseline (Baseline.colvec v))
      (npRowVec cs) (npScalar t) mht alpha).rows = R ∧
    (cs.length = C →
      (ttest_bernoulli_ind sf (npOfGrid fp R C) (npOfBaseline (Baseline.colvec v))
        (npRowVec cs) (npScalar t) mht alpha).cols = C) := by
  subst hv
  constructor
  · cases mht <;>
      simp [ttest_bernoulli_ind, ttest_pvalue, ttest_Z, ttest_std, NpArr.map2, NpArr.map1,
        npOfGrid, npOfBaseline, npRowVec, npScalar, brDim_self, brDim_one_right]
  · intro hcs
    subst hcs
    cases mht <;>
      simp [ttest_bernoulli_ind, ttest_pvalue, ttest_Z, ttest_std, NpArr.map2, NpArr.map1,
        npOfGrid, npOfBaseline, npRowVec, npScalar, brDim_self, brDim_one_right]

/-- Shapes of the significance mask in the `normalize = "second"` wiring. -/
theorem ttest_dims_second (sf : ℚ → ℚ) (fp : List (List ℚ)) (R C : ℕ)
    (w rs : List ℚ) (t : ℚ) (mht : Bool) (alpha : ℚ) (hrs : rs.length = R) :
    (ttest_bernoulli_ind sf (npOfGrid fp R C) (npOfBaseline (Baseline.rowvec w))
      (npColVec rs) (npScalar t) mht alpha).rows = R ∧
    (w.length = C →
      (ttest_bernoulli_ind sf (npOfGrid fp R C) (npOfBaseline (Baseline.rowvec w))
        (npColVec rs) (npScalar t) mht alpha).cols = C) := by
  subst hrs
  constructor
  · cases mht <;>
      simp [ttest_bernoulli_ind, ttest_pvalue, ttest_Z, ttest_std, NpArr.map2, NpArr.map1,
        npOfGrid, npOfBaseline, npColVec, npScalar, brDim_self, brDim_one_right]
  · intro hw
    subst hw
    cases mht <;>
      simp [ttest_bernoulli_ind, ttest_pvalue, ttest_Z, ttest_std, NpArr.map2, NpArr.map1,
        npOfGrid, npOfBaseline, npColVec, npScalar, brDim_self, brDim_one_right]

theorem gridOf_shape_mem (occ : List ((String × String) × ℕ)) (xt yt : List String) :
    ∀ r ∈ gridOf occ xt yt, r.length = xt.length := by
  intro r hr
  rcases List.mem_iff_getElem.mp hr with ⟨k, hk, rfl⟩
  exact (gridOf_shape occ xt yt).2 k hk

theorem divByColSums_shape (g : List (List ℚ)) (C : ℕ) (h : ∀ r ∈ g, r.length = C) :
    ∀ r ∈ divByColSums g, r.length = C := by
  intro r hr
  rcases List.mem_map.mp hr with ⟨r0, hr0, rfl⟩
  simpa using h r0 hr0

theorem divByRowSums_shape (g : List (List ℚ)) (C : ℕ) (h : ∀ r ∈ g, r.length = C) :
    ∀ r ∈ divByRowSums g, r.length = C := by
  intro r hr
  rcases List.mem_map.mp hr with ⟨r0, hr0, rfl⟩
  simpa using h r0 hr0

theorem divByTotal_shape (g : List (List ℚ)) (C : ℕ) (h : ∀ r ∈ g, r.length = C) :
    ∀ r ∈ divByTotal g, r.length = C := by
  intro r hr
  rcases List.mem_map.mp hr with ⟨r0, hr0, rfl⟩
  simpa using h r0 hr0

theorem combineDiv_shape (g : List (List ℚ)) (bl : Baseline) (C : ℕ)
    (h : ∀ r ∈ g, r.length = C) : ∀ r ∈ combineDiv g bl, r.length = C := by
  cases bl with
  | colvec v =>
      intro r hr
      rcases List.mem_map.mp hr with ⟨pr, hpr, rfl⟩
      rcases List.mem_iff_getElem.mp hpr with ⟨k, hk, hpr2⟩
      have hk2 : k < g.length := by simpa using hk
      rw [List.getElem_enum] at hpr2
      have : pr.2 = g[k] := by rw [← hpr2]
      rw [List.length_map, this]
      exact h _ (List.getElem_mem hk2)
  | rowvec v =>
      intro r hr
      rcases List.mem_map.mp hr with ⟨r0, hr0, rfl⟩
      simpa using h r0 hr0

theorem combineSub_shape (g : List (List ℚ)) (bl : Baseline) (C : ℕ)
    (h : ∀ r ∈ g, r.length = C) : ∀ r ∈ combineSub g bl, r.length = C := by
  cases bl with
  | colvec v =>
      intro r hr
      rcases List.mem_map.mp hr with ⟨pr, hpr, rfl⟩
      rcases List.mem_iff_getElem.mp hpr with ⟨k, hk, hpr2⟩
      have hk2 : k < g.length := by simpa using hk
      rw [List.getElem_enum] at hpr2
      have : pr.2 = g[k] := by rw [← hpr2]
      rw [List.length_map, this]
      exact h _ (List.getElem_mem hk2)
  | rowvec v =>
      intro r hr
      rcases List.mem_map.mp hr with ⟨r0, hr0, rfl⟩
      simpa using h r0 hr0

/-- Row lengths of the normalized grid, whatever the `normalize` string. -/
theorem first_part_shape (normalize : String) (grid : List (List ℚ)) (C : ℕ)
    (h : ∀ r ∈ grid, r.length = C) :
    ∀ r ∈ (if normalize = "first" then divByColSums grid
           else if normalize = "second" then divByRowSums grid
           else if normalize = "both" then divByTotal grid else grid), r.length = C := by
  split
  · exact divByColSums_shape grid C h
  · split
    · exact divByRowSums_shape grid C h
    · split
      · exact divByTotal_shape grid C h
      · exact h

theorem combine_shape (fp : List (List ℚ)) (bl : Baseline) (C : ℕ) (comp : String)
    (h : ∀ r ∈ fp, r.length = C) :
    ∀ r ∈ (if comp = "divide" then combineDiv fp bl else combineSub fp bl),
      r.length = C := by
  split
  · exact combineDiv_shape fp bl C h
  · exact combineSub_shape fp bl C h

/-- The exclusion set enters `calc_tail` only in the final packaging. -/
theorem calc_tail_exclusion (sf : ℚ → ℚ) (lx ly : List String)
    (normalize compare_default_value : String) (alpha : ℚ) (mht : Bool)
    (S : List String) :
    calc_tail sf lx ly normalize compare_default_value alpha mht S =
      Except.map (restrictOut S)
        (calc_tail sf lx ly normalize compare_default_value alpha mht []) := by
  have hgrid := gridOf_shape_mem (value_counts_pairs (lx.zip ly)) (sortedTicks lx)
    (sortedTicks ly)
  have hgridlen := (gridOf_shape (value_counts_pairs (lx.zip ly)) (sortedTicks lx)
    (sortedTicks ly)).1
  have hgrididx := (gridOf_shape (value_counts_pairs (lx.zip ly)) (sortedTicks lx)
    (sortedTicks ly)).2
  have hv1 : (normalize_1d (rowSums (gridOf (value_counts_pairs (lx.zip ly))
      (sortedTicks lx) (sortedTicks ly)))).length = (sortedTicks ly).length := by
    rw [normalize_1d_length, rowSums_length, hgridlen]
  have hrs1 : (rowSums (gridOf (value_counts_pairs (lx.zip ly))
      (sortedTicks lx) (sortedTicks ly))).length = (sortedTicks ly).length := by
    rw [rowSums_length, hgridlen]
  by_cases hc0 : compare_default_value = "none"
  · subst hc0
    unfold calc_tail
    rw [if_pos rfl]
    rw [if_pos rfl]
    exact congrArg Except.ok
      (package_restrict _ none _ _ _ _ S (first_part_shape _ _ _ hgrid)
        (fun m hm => nomatch hm))
  · by_cases hcd : compare_default_value = "divide" ∨ compare_default_value = "subtract"
    · by_cases hn1 : normalize = "first"
      · subst hn1
        rcases hcd with hd | hs
        · subst hd
          refine congrArg Except.ok
            (package_restrict
              (combineDiv
                (divByColSums (gridOf (value_counts_pairs (lx.zip ly)) (sortedTicks lx)
                  (sortedTicks ly)))
                (Baseline.colvec (normalize_1d (rowSums (gridOf
                  (value_counts_pairs (lx.zip ly)) (sortedTicks lx) (sortedTicks ly))))))
              (some ((ttest_bernoulli_ind sf
                (npOfGrid (divByColSums (gridOf (value_counts_pairs (lx.zip ly))
                  (sortedTicks lx) (sortedTicks ly))) (sortedTicks ly).length
                  (sortedTicks lx).length)
                (npOfBaseline (Baseline.colvec (normalize_1d (rowSums (gridOf
                  (value_counts_pairs (lx.zip ly)) (sortedTicks lx) (sortedTicks ly))))))
                (npRowVec (colSums (gridOf (value_counts_pairs (lx.zip ly))
                  (sortedTicks lx) (sortedTicks ly))))
                (npScalar (gridTotal (gridOf (value_counts_pairs (lx.zip ly))
                  (sortedTicks lx) (sortedTicks ly)))) mht alpha).toLists))
              (sortedTicks lx) (sortedTicks ly) (value_counts_pairs (lx.zip ly))
              (gridOf (value_counts_pairs (lx.zip ly)) (sortedTicks lx) (sortedTicks ly)) S
              (combineDiv_shape _ _ _ (divByColSums_shape _ _ hgrid)) ?_)
          intro m hm
          injection hm with hm2
          rw [← hm2]
          apply toLists_row_len
          intro hpos
          have hdims := ttest_dims_first sf
            (divByColSums (gridOf (value_counts_pairs (lx.zip ly)) (sortedTicks lx)
              (sortedTicks ly)))
            (sortedTicks ly).length (sortedTicks lx).length
            (normalize_1d (rowSums (gridOf (value_counts_pairs (lx.zip ly))
              (sortedTicks lx) (sortedTicks ly))))
            (colSums (gridOf (value_counts_pairs (lx.zip ly)) (sortedTicks lx)
              (sortedTicks ly)))
            (gridTotal (gridOf (value_counts_pairs (lx.zip ly)) (sortedTicks lx)
              (sortedTicks ly))) mht alpha hv1
          apply hdims.2
          apply colSums_length_of_shape _ _ _ hgrididx
          rw [hdims.1] at hpos
          rw [hgridlen]
          exact hpos
        · subst hs
          refine congrArg Except.ok
            (package_restrict
              (combineSub
                (divByColSums (gridOf (value_counts_pairs (lx.zip ly)) (sortedTicks lx)
                  (sortedTicks ly)))
                (Baseline.colvec (normalize_1d (rowSums (gridOf
                  (value_counts_pairs (lx.zip ly)) (sortedTicks lx) (sortedTicks ly))))))
              (some ((ttest_bernoulli_ind sf
                (npOfGrid (divByColSums (gridOf (value_counts_pairs (lx.zip ly))
                  (sortedTicks lx) (sortedTicks ly))) (sortedTicks ly).length
                  (sortedTicks lx).length)
                (npOfBaseline (Baseline.colvec (normalize_1d (rowSums (gridOf
                  (value_counts_pairs (lx.zip ly)) (sortedTicks lx) (sortedTicks ly))))))
                (npRowVec (colSums (gridOf (value_counts_pairs (lx.zip ly))
                  (sortedTicks lx) (sortedTicks ly))))
                (npScalar (gridTotal (gridOf (value_counts_pairs (lx.zip ly))
                  (sortedTicks lx) (sortedTicks ly)))) mht alpha).toLists))
              (sortedTicks lx) (sortedTicks ly) (value_counts_pairs (lx.zip ly))
              (gridOf (value_counts_pairs (lx.zip ly)) (sortedTicks lx) (sortedTicks ly)) S
              (combineSub_shape _ _ _ (divByColSums_shape _ _ hgrid)) ?_)
          intro m hm
          injection hm with hm2
          rw [← hm2]
          apply toLists_row_len
          intro hpos
          have hdims := ttest_dims_first sf
            (divByColSums (gridOf (value_counts_pairs (lx.zip ly)) (sortedTicks lx)
              (sortedTicks ly)))
            (sortedTicks ly).length (sortedTicks lx).length
            (normalize_1d (rowSums (gridOf (value_counts_pairs (lx.zip ly))
              (sortedTicks lx) (sortedTicks ly))))
            (colSums (gridOf (value_counts_pairs (lx.zip ly)) (sortedTicks lx)
              (sortedTicks ly)))
            (gridTotal (gridOf (value_counts_pairs (lx.zip ly)) (sortedTicks lx)
              (sortedTicks ly))) mht alpha hv1
          apply hdims.2
          apply colSums_length_of_shape _ _ _ hgrididx
          rw [hdims.1] at hpos
          rw [hgridlen]
          exact hpos
      · by_cases hn2 : normalize = "second"
        · subst hn2
          rcases hcd with hd | hs
          · subst hd
            refine congrArg Except.ok
              (package_restrict
                (combineDiv
                  (divByRowSums (gridOf (value_counts_pairs (lx.zip ly)) (sortedTicks lx)
                    (sortedTicks ly)))
                  (Baseline.rowvec (normalize_1d (colSums (gridOf
                    (value_counts_pairs (lx.zip ly)) (sortedTicks lx) (sortedTicks ly))))))
                (some ((ttest_bernoulli_ind sf
                  (npOfGrid (divByRowSums (gridOf (value_counts_pairs (lx.zip ly))
                    (sortedTicks lx) (sortedTicks ly))) (sortedTicks ly).length
                    (sortedTicks lx).length)
                  (npOfBaseline (Baseline.rowvec (normalize_1d (colSums (gridOf
                    (value_counts_pairs (lx.zip ly)) (sortedTicks lx) (sortedTicks ly))))))
                  (npColVec (rowSums (gridOf (value_counts_pairs (lx.zip ly))
                    (sortedTicks lx) (sortedTicks ly))))
                  (npScalar (gridTotal (gridOf (value_counts_pairs (lx.zip ly))
                    (sortedTicks lx) (sortedTicks ly)))) mht alpha).toLists))
                (sortedTicks lx) (sortedTicks ly) (value_counts_pairs (lx.zip ly))
                (gridOf (value_counts_pairs (lx.zip ly)) (sortedTicks lx) (sortedTicks ly)) S
                (combineDiv_shape _ _ _ (divByRowSums_shape _ _ hgrid)) ?_)
            intro m hm
            injection hm with hm2
            rw [← hm2]
            apply toLists_row_len
            intro hpos
            have hdims := ttest_dims_second sf
              (divByRowSums (gridOf (value_counts_pairs (lx.zip ly)) (sortedTicks lx)
                (sortedTicks ly)))
              (sortedTicks ly).length (sortedTicks lx).length
              (normalize_1d (colSums (gridOf (value_counts_pairs (lx.zip ly))
                (sortedTicks lx) (sortedTicks ly))))
              (rowSums (gridOf (value_counts_pairs (lx.zip ly)) (sortedTicks lx)
                (sortedTicks ly)))
              (gridTotal (gridOf (value_counts_pairs (lx.zip ly)) (sortedTicks lx)
                (sortedTicks ly))) mht alpha hrs1
            apply hdims.2
            rw [normalize_1d_length]
            apply colSums_length_of_shape _ _ _ hgrididx
            rw [hdims.1] at hpos
            rw [hgridlen]
            exact hpos
          · subst hs
            refine congrArg Except.ok
              (package_restrict
                (combineSub
                  (divByRowSums (gridOf (value_counts_pairs (lx.zip ly)) (sortedTicks lx)
                    (sortedTicks ly)))
                  (Baseline.rowvec (normalize_1d (colSums (gridOf
                    (value_counts_pairs (lx.zip ly)) (sortedTicks lx) (sortedTicks ly))))))
                (some ((ttest_bernoulli_ind sf
                  (npOfGrid (divByRowSums (gridOf (value_counts_pairs (lx.zip ly))
                    (sortedTicks lx) (sortedTicks ly))) (sortedTicks ly).length
                    (sortedTicks lx).length)
                  (npOfBaseline (Baseline.rowvec (normalize_1d (colSums (gridOf
                    (value_counts_pairs (lx.zip ly)) (sortedTicks lx) (sortedTicks ly))))))
                  (npColVec (rowSums (gridOf (value_counts_pairs (lx.zip ly))
                    (sortedTicks lx) (sortedTicks ly))))
                  (npScalar (gridTotal (gridOf (value_counts_pairs (lx.zip ly))
                    (sortedTicks lx) (sortedTicks ly)))) mht alpha).toLists))
                (sortedTicks lx) (sortedTicks ly) (value_counts_pairs (lx.zip ly))
                (gridOf (value_counts_pairs (lx.zip ly)) (sortedTicks lx) (sortedTicks ly)) S
                (combineSub_shape _ _ _ (divByRowSums_shape _ _ hgrid)) ?_)
            intro m hm
            injection hm with hm2
            rw [← hm2]
            apply toLists_row_len
            intro hpos
            have hdims := ttest_dims_second sf
              (divByRowSums (gridOf (value_counts_pairs (lx.zip ly)) (sortedTicks lx)
                (sortedTicks ly)))
              (sortedTicks ly).length (sortedTicks lx).length
              (normalize_1d (colSums (gridOf (value_counts_pairs (lx.zip ly))
                (sortedTicks lx) (sortedTicks ly))))
              (rowSums (gridOf (value_counts_pairs (lx.zip ly)) (sortedTicks lx)
                (sortedTicks ly)))
              (gridTotal (gridOf (value_counts_pairs (lx.zip ly)) (sortedTicks lx)
                (sortedTicks ly))) mht alpha hrs1
            apply hdims.2
            rw [normalize_1d_length]
            apply colSums_length_of_shape _ _ _ hgrididx
            rw [hdims.1] at hpos
            rw [hgridlen]
            exact hpos
        · -- UnboundLocalError on both sides
          unfold calc_tail
          rw [if_neg hc0]
          rw [if_neg hc0]
          rw [if_pos hcd]
          rw [if_pos hcd]
          rw [if_neg hn1]
          rw [if_neg hn1]
          rw [if_neg hn1]
          rw [if_neg hn2]
          rw [if_neg hn2]
          rfl
    · -- RuntimeError on both sides
      unfold calc_tail
      rw [if_neg hc0]
      rw [if_neg hc0]
      rw [if_neg hcd]
      rw [if_neg hcd]
      rfl

/-- C7: the output with exclusion set `S` equals the output with no exclusion,
restricted to the columns whose x-label is not in `S` (and the shown tick list
is the full sorted tick list with the members of `S` removed): the exclusion
is applied only after all normalization, baseline and significance
computation, so excluded labels still contribute to the baseline statistics. -/
theorem calc_exclusion_after_computation (sf : ℚ → ℚ) (data : DataFrame)
    (xcol ycol : String) (num_xbins num_ybins : ℕ)
    (normalize compare_default_value : String) (alpha : ℚ) (mht : Bool)
    (S : List String) :
    calculate_ticks_and_norm sf data xcol ycol num_xbins num_ybins normalize
        compare_default_value alpha mht S =
      Except.map (restrictOut S)
        (calculate_ticks_and_norm sf data xcol ycol num_xbins num_ybins normalize
          compare_default_value alpha mht []) := by
  unfold calculate_ticks_and_norm
  cases hpre : calc_bins data xcol ycol num_xbins num_ybins with
  | error e => rfl
  | ok p =>
      exact calc_tail_exclusion sf p.1 p.2 normalize compare_default_value alpha mht S

/-! ### Grid mass conservation (C3) -/

theorem exbind_ok {α β : Type} (a : α) (k : α → Except String β) :
    (Except.ok a >>= k : Except String β) = k a := rfl

theorem exbind_err {α β : Type} (e : String) (k : α → Except String β) :
    ((Except.error e : Except String α) >>= k) = Except.error e := rfl

theorem mapM_ok_length {α β : Type} (f : α → Except String β) :
    ∀ (l : List α) (ys : List β), l.mapM f = Except.ok ys → ys.length = l.length
  | [], ys, h => by
      rw [List.mapM_nil] at h
      injection h with h2
      rw [← h2]
      rfl
  | a :: l, ys, h => by
      rw [List.mapM_cons] at h
      cases hfa : f a with
      | error e =>
          rw [hfa, exbind_err] at h
          exact absurd h (by simp)
      | ok b =>
          rw [hfa, exbind_ok] at h
          cases hml : l.mapM f with
          | error e =>
              rw [hml, exbind_err] at h
              exact absurd h (by simp)
          | ok bs =>
              rw [hml, exbind_ok] at h
              have h2 : Except.ok (b :: bs) = Except.ok ys := h
              injection h2 with h3
              rw [← h3]
              simp only [List.length_cons]
              rw [mapM_ok_length f l bs hml]

theorem remove_nans_length (xs : List (Option String)) :
    (remove_nans xs).length = xs.length := List.length_map _ _

theorem add_column_other_length (xs : List String) (B : ℕ) :
    (add_column_other xs B).length = xs.length := by
  rw [add_column_other_eq_keepMap]
  exact List.length_map _ _

theorem find_percentiles_ok_length (xs : List (Option ℚ)) (B : ℕ) (ls : List String)
    (h : find_percentiles xs B = Except.ok ls) : ls.length = xs.length := by
  unfold find_percentiles at h
  split at h
  · exact absurd h (by simp)
  · dsimp only [] at h
    split at h
    · exact absurd h (by simp)
    · exact mapM_ok_length _ xs ls h

theorem binAxis_ok_length (c : Col) (B : ℕ) (ls : List String)
    (h : binAxis c B = Except.ok ls) : ls.length = c.length := by
  cases c with
  | nums xs => exact find_percentiles_ok_length xs B ls h
  | strs xs =>
      have h2 : Except.ok (remove_nans xs) = Except.ok ls := h
      injection h2 with h3
      rw [← h3]
      exact remove_nans_length xs

theorem calc_bins_ok_inv (data : DataFrame) (xcol ycol : String) (nx ny : ℕ)
    (p : List String × List String) (cx cy : Col)
    (hx : data.get xcol = some cx) (hy : data.get ycol = some cy)
    (h : calc_bins data xcol ycol nx ny = Except.ok p) :
    p.1.length = cx.length ∧ p.2.length = cy.length := by
  unfold calc_bins at h
  rw [hx, hy] at h
  dsimp only [] at h
  cases hbx : binAxis cx nx with
  | error e =>
      rw [hbx] at h
      exact absurd h (by simp)
  | ok lx =>
      rw [hbx] at h
      cases hby : binAxis cy ny with
      | error e =>
          rw [hby] at h
          exact absurd h (by simp)
      | ok ly =>
          rw [hby] at h
          have h2 : Except.ok
              ((if nx + 1 < (uniqFirst lx).length then add_column_other lx nx else lx),
               (if ny + 1 < (uniqFirst ly).length then add_column_other ly ny else ly)) =
              Except.ok p := h
          injection h2 with h3
          rw [← h3]
          constructor
          · show (if nx + 1 < (uniqFirst lx).length then add_column_other lx nx
              else lx).length = cx.length
            split
            · rw [add_column_other_length]
              exact binAxis_ok_length cx nx lx hbx
            · exact binAxis_ok_length cx nx lx hbx
          · show (if ny + 1 < (uniqFirst ly).length then add_column_other ly ny
              else ly).length = cy.length
            split
            · rw [add_column_other_length]
              exact binAxis_ok_length cy ny ly hby
            · exact binAxis_ok_length cy ny ly hby

/-- Whatever the configuration, a successful `calc_tail` packages the sorted
tick lists, the full index maps and the raw grid unchanged. -/
theorem calc_tail_ok_inv (sf : ℚ → ℚ) (lx ly : List String)
    (normalize compare_default_value : String) (alpha : ℚ) (mht : Bool)
    (dns : List String) (out : CalcOut)
    (h : calc_tail sf lx ly normalize compare_default_value alpha mht dns =
      Except.ok out) :
    out.yticks_name = sortedTicks ly ∧
    out.label2index_x = l2i (sortedTicks lx) ∧
    out.grid = gridOf (value_counts_pairs (lx.zip ly)) (sortedTicks lx) (sortedTicks ly) := by
  unfold calc_tail at h
  simp only [] at h
  split at h
  · injection h with h2
    rw [← h2]
    exact ⟨rfl, rfl, rfl⟩
  · split at h
    · split at h
      · injection h with h2
        rw [← h2]
        exact ⟨rfl, rfl, rfl⟩
      · split at h
        · injection h with h2
          rw [← h2]
          exact ⟨rfl, rfl, rfl⟩
        · exact absurd h (by simp)
    · exact absurd h (by simp)

theorem get2d_set2d_self (g : List (List ℚ)) (i j : ℕ) (v : ℚ)
    (hi : i < g.length) (hj : j < (g.getD i []).length) :
    get2d (set2d g i j v) i j = v := by
  unfold get2d set2d
  rw [List.getD_eq_getElem?_getD (g.set i ((g.getD i []).set j v)) i []]
  rw [List.getElem?_set_self hi, Option.getD_some]
  rw [List.getD_eq_getElem?_getD ((g.getD i []).set j v) j 0]
  rw [List.getElem?_set_self hj, Option.getD_some]

theorem get2d_set2d_ne (g : List (List ℚ)) (i0 j0 i j : ℕ) (v : ℚ)
    (hne : i0 ≠ i ∨ j0 ≠ j) :
    get2d (set2d g i0 j0 v) i j = get2d g i j := by
  unfold get2d set2d
  by_cases hii : i0 = i
  · subst hii
    rcases hne with h | h
    · exact absurd rfl h
    · rw [List.getD_eq_getElem?_getD (g.set i0 _) i0]
      by_cases hlt : i0 < g.length
      · rw [List.getElem?_set_self (by exact hlt), Option.getD_some]
        rw [List.getD_eq_getElem?_getD g i0]
        rw [List.getD_eq_getElem?_getD, List.getElem?_set_ne (fun hc => h hc)]
        rw [← List.getD_eq_getElem?_getD, ← List.getD_eq_getElem?_getD]
      · have hnone : (g.set i0 ((g.getD i0 []).set j0 v))[i0]? = none := by
          rw [List.getElem?_eq_none]
          rw [List.length_set]
          omega
        have hnone2 : g[i0]? = none := by
          rw [List.getElem?_eq_none]
          omega
        rw [hnone, List.getD_eq_getElem?_getD g i0, hnone2]
  · rw [List.getD_eq_getElem?_getD (g.set i0 _) i, List.getElem?_set_ne hii,
      ← List.getD_eq_getElem?_getD]

theorem qsum_eq_sum (l : List ℚ) : qsum l = l.sum := by
  induction l with
  | nil => rfl
  | cons a t ih => rw [qsum_cons, List.sum_cons, ih]

theorem sum_set_q (l : List ℚ) : ∀ (i : ℕ) (x : ℚ), i < l.length →
    (l.set i x).sum = l.sum - l.getD i 0 + x := by
  induction l with
  | nil =>
      intro i x h
      exact absurd h (by simp)
  | cons a t ih =>
      intro i x h
      cases i with
      | zero =>
          show (x :: t).sum = (a :: t).sum - (a :: t).getD 0 0 + x
          rw [List.sum_cons, List.sum_cons, List.getD_cons_zero]
          ring
      | succ m =>
          show (a :: t.set m x).sum = (a :: t).sum - (a :: t).getD (m + 1) 0 + x
          rw [List.sum_cons, List.sum_cons, List.getD_cons_succ,
            ih m x (by simpa using h)]
          ring

theorem gridTotal_set2d (g : List (List ℚ)) (i j : ℕ) (v : ℚ)
    (hi : i < g.length) (hj : j < (g.getD i []).length) :
    gridTotal (set2d g i j v) = gridTotal g - get2d g i j + v := by
  unfold gridTotal set2d get2d
  rw [List.map_set]
  rw [qsum_eq_sum ((List.map qsum g).set i (qsum ((g.getD i []).set j v)))]
  rw [sum_set_q _ i _ (by simpa using hi)]
  have h1 : (List.map qsum g).getD i 0 = qsum (g.getD i []) := by
    rw [List.getD_eq_getElem _ _ (by simpa using hi), List.getElem_map,
      List.getD_eq_getElem _ _ hi]
  rw [h1, qsum_eq_sum ((g.getD i []).set j v), sum_set_q _ j _ hj,
    qsum_eq_sum (List.map qsum g), qsum_eq_sum (g.getD i [])]
  ring

theorem get2d_set2d_cases (g : List (List ℚ)) (i0 j0 i j : ℕ) (v : ℚ) :
    get2d (set2d g i0 j0 v) i j = get2d g i j ∨ get2d (set2d g i0 j0 v) i j = v := by
  by_cases hi : i0 = i
  · by_cases hj : j0 = j
    · subst hi
      subst hj
      by_cases hri : i0 < g.length
      · by_cases hrj : j0 < (g.getD i0 []).length
        · exact Or.inr (get2d_set2d_self g i0 j0 v hri hrj)
        · left
          unfold get2d set2d
          rw [List.set_eq_of_length_le (le_of_not_lt hrj)]
          rw [List.getD_eq_getElem (g.set i0 (g.getD i0 [])) []
            (show i0 < (g.set i0 (g.getD i0 [])).length by simpa using hri)]
          rw [List.getElem_set_self (by simpa using hri)]
      · left
        unfold get2d set2d
        rw [List.set_eq_of_length_le (le_of_not_lt hri)]
    · exact Or.inl (get2d_set2d_ne g i0 j0 i j v (Or.inr hj))
  · exact Or.inl (get2d_set2d_ne g i0 j0 i j v (Or.inl hi))

theorem get2d_zeros (R C i j : ℕ) :
    get2d (List.replicate R (List.replicate C (0 : ℚ))) i j = 0 := by
  unfold get2d
  rcases lt_or_ge i R with hi | hi
  · rw [List.getD_eq_getElem (List.replicate R (List.replicate C (0 : ℚ))) []
      (by simpa using hi), List.getElem_replicate]
    rcases lt_or_ge j C with hj | hj
    · rw [List.getD_eq_getElem (List.replicate C (0 : ℚ)) 0 (by simpa using hj),
        List.getElem_replicate]
    · exact List.getD_eq_default _ _ (by simpa using hj)
  · rw [List.getD_eq_default (List.replicate R (List.replicate C (0 : ℚ))) []
      (by simpa using hi)]
    rfl

theorem gridTotal_zeros (R C : ℕ) :
    gridTotal (List.replicate R (List.replicate C (0 : ℚ))) = 0 := by
  unfold gridTotal
  have hin : qsum (List.replicate C (0 : ℚ)) = 0 := by
    rw [qsum_eq_sum, List.sum_replicate, smul_zero]
  rw [List.map_replicate, hin, qsum_eq_sum, List.sum_replicate, smul_zero]

theorem foldl_set2d_nonneg (row col : ((String × String) × ℕ) → ℕ) :
    ∀ (occ : List ((String × String) × ℕ)) (g : List (List ℚ)),
    (∀ i j, 0 ≤ get2d g i j) →
    ∀ i j, 0 ≤ get2d (occ.foldl
      (fun g e => set2d g (row e) (col e) (qofNat e.2)) g) i j := by
  intro occ
  induction occ with
  | nil => exact fun g hg i j => hg i j
  | cons e rest ih =>
      intro g hg i j
      apply ih
      intro a b
      rcases get2d_set2d_cases g (row e) (col e) a b (qofNat e.2) with hc | hc
      · rw [hc]
        exact hg a b
      · rw [hc, qofNat_eq]
        exact Nat.cast_nonneg _

theorem gridOf_nonneg (occ : List ((String × String) × ℕ)) (xt yt : List String) :
    ∀ i j, 0 ≤ get2d (gridOf occ xt yt) i j := by
  intro i j
  unfold gridOf
  refine foldl_set2d_nonneg (fun e => yt.findIdx (fun t => t == e.1.2))
    (fun e => xt.findIdx (fun t => t == e.1.1)) occ _ ?_ i j
  intro a b
  rw [get2d_zeros]

theorem gridTotal_foldl_fresh (row col : ((String × String) × ℕ) → ℕ) (R C : ℕ) :
    ∀ (occ : List ((String × String) × ℕ)) (g : List (List ℚ)),
    g.length = R → (∀ k, (hk : k < g.length) → g[k].length = C) →
    (∀ e ∈ occ, row e < R ∧ col e < C) →
    (∀ e ∈ occ, get2d g (row e) (col e) = 0) →
    occ.Pairwise (fun e1 e2 => row e1 ≠ row e2 ∨ col e1 ≠ col e2) →
    gridTotal (occ.foldl (fun g e => set2d g (row e) (col e) (qofNat e.2)) g) =
      gridTotal g + (occ.map (fun e => qofNat e.2)).sum := by
  intro occ
  induction occ with
  | nil =>
      intro g _ _ _ _ _
      simp
  | cons e rest ih =>
      intro g hR hC hrange hfresh hpw
      rcases List.pairwise_cons.mp hpw with ⟨hhead, htail⟩
      have hre : row e < R ∧ col e < C := hrange e (List.mem_cons_self e rest)
      have hig : row e < g.length := by rw [hR]; exact hre.1
      have hjg : col e < (g.getD (row e) []).length := by
        rw [List.getD_eq_getElem _ _ hig, hC (row e) hig]
        exact hre.2
      have hstep : List.foldl (fun g e => set2d g (row e) (col e) (qofNat e.2)) g
          (e :: rest) = List.foldl (fun g e => set2d g (row e) (col e) (qofNat e.2))
          (set2d g (row e) (col e) (qofNat e.2)) rest := rfl
      rw [hstep]
      rw [ih (set2d g (row e) (col e) (qofNat e.2))
        (by rw [set2d_length]; exact hR)
        (set2d_shape _ _ _ _ _ hC)
        (fun e' he' => hrange e' (List.mem_cons_of_mem e he'))
        (fun e' he' => by
          rw [get2d_set2d_ne g (row e) (col e) (row e') (col e') (qofNat e.2)
            (hhead e' he')]
          exact hfresh e' (List.mem_cons_of_mem e he'))
        htail]
      rw [gridTotal_set2d g (row e) (col e) (qofNat e.2) hig hjg,
        hfresh e (List.mem_cons_self e rest)]
      rw [List.map_cons, List.sum_cons]
      ring

theorem mem_sortedTicks (ls : List String) (a : String) :
    a ∈ sortedTicks ls ↔ a ∈ ls := by
  unfold sortedTicks pySorted
  rw [(List.perm_insertionSort sLe (uniqFirst ls)).mem_iff]
  exact mem_uniqFirst ls a

theorem findIdx_beq_inj (l : List String) (a b : String) (ha : a ∈ l) (hb : b ∈ l)
    (h : l.findIdx (fun t => t == a) = l.findIdx (fun t => t == b)) : a = b := by
  have hla : l.findIdx (fun t => t == a) < l.length :=
    List.findIdx_lt_length_of_exists ⟨a, ha, by simp⟩
  have hlb : l.findIdx (fun t => t == b) < l.length :=
    List.findIdx_lt_length_of_exists ⟨b, hb, by simp⟩
  have h1 : l[l.findIdx (fun t => t == a)]? = some a := by
    rw [List.getElem?_eq_getElem hla]
    exact congrArg some (eq_of_beq (@List.findIdx_getElem _ _ _ hla))
  have h2 : l[l.findIdx (fun t => t == b)]? = some b := by
    rw [List.getElem?_eq_getElem hlb]
    exact congrArg some (eq_of_beq (@List.findIdx_getElem _ _ _ hlb))
  rw [h, h2] at h1
  injection h1 with h3
  exact h3.symm

theorem sum_map_ite_count (p : String × String) :
    ∀ (u : List (String × String)),
    (u.map (fun k => if p == k then 1 else 0)).sum = List.count p u := by
  intro u
  induction u with
  | nil => rfl
  | cons a t ih =>
      rw [List.map_cons, List.sum_cons, ih, List.count_cons]
      by_cases hpa : p = a
      · subst hpa
        simp only [beq_self_eq_true, if_true]
        omega
      · have h1 : (p == a) = false := beq_eq_false_iff_ne.mpr hpa
        have h2 : (a == p) = false := beq_eq_false_iff_ne.mpr (Ne.symm hpa)
        simp only [h1, h2, if_false]
        omega

theorem count_eq_one_of_nodup_mem :
    ∀ (u : List (String × String)), u.Nodup → ∀ p ∈ u, List.count p u = 1 := by
  intro u
  induction u with
  | nil =>
      intro _ p hp
      exact absurd hp (by simp)
  | cons a t ih =>
      intro hu p hp
      rcases List.nodup_cons.mp hu with ⟨hna, hnt⟩
      rw [List.count_cons]
      rcases List.mem_cons.mp hp with hpa | hpt
      · subst hpa
        rw [List.count_eq_zero.mpr hna, beq_self_eq_true, if_pos rfl]
      · have hne : a ≠ p := fun hc => hna (hc ▸ hpt)
        rw [ih hnt p hpt, beq_eq_false_iff_ne.mpr hne, if_neg (by simp)]

theorem sum_map_count (u : List (String × String)) (hu : u.Nodup) :
    ∀ (ps : List (String × String)), (∀ a ∈ ps, a ∈ u) →
    (u.map (fun k => ps.count k)).sum = ps.length := by
  intro ps
  induction ps with
  | nil =>
      intro _
      simp
  | cons p t ih =>
      intro hps
      have hcong : u.map (fun k => (p :: t).count k) =
          u.map (fun k => t.count k + if p == k then 1 else 0) := by
        apply List.map_congr_left
        intro a _
        exact List.count_cons a p t
      rw [hcong]
      have hsplit : ∀ (w : List (String × String)),
          (w.map (fun k => t.count k + if p == k then 1 else 0)).sum =
          (w.map (fun k => t.count k)).sum +
            (w.map (fun k => if p == k then 1 else 0)).sum := by
        intro w
        induction w with
        | nil => rfl
        | cons b s ihw =>
            rw [List.map_cons, List.sum_cons, ihw, List.map_cons, List.sum_cons,
              List.map_cons, List.sum_cons]
            omega
      rw [hsplit, ih (fun a ha => hps a (List.mem_cons_of_mem p ha)),
        sum_map_ite_count p u,
        count_eq_one_of_nodup_mem u hu p (hps p (List.mem_cons_self p t))]
      rfl

theorem l2i_length (ts : List String) : (l2i ts).length = ts.length := by
  unfold l2i
  rw [List.length_map, List.enum_length]

theorem gridTotal_gridOf (lx ly : List String) :
    gridTotal (gridOf (value_counts_pairs (lx.zip ly)) (sortedTicks lx) (sortedTicks ly)) =
      (((lx.zip ly).length : ℕ) : ℚ) := by
  have hperm : (value_counts_pairs (lx.zip ly)).Perm
      ((uniqFirst (lx.zip ly)).map (fun k => (k, (lx.zip ly).count k))) := by
    unfold value_counts_pairs
    exact List.perm_insertionSort _ _
  have hmem : ∀ e ∈ value_counts_pairs (lx.zip ly),
      e.1.1 ∈ sortedTicks lx ∧ e.1.2 ∈ sortedTicks ly := by
    intro e he
    rcases List.mem_map.mp (hperm.mem_iff.mp he) with ⟨k, hk, hke⟩
    have hkey : e.1 = k := by rw [← hke]
    have hz : (e.1.1, e.1.2) ∈ lx.zip ly := by
      rw [Prod.mk.eta, hkey]
      exact (mem_uniqFirst _ _).mp hk
    rcases List.of_mem_zip hz with ⟨h1, h2⟩
    exact ⟨(mem_sortedTicks lx _).mpr h1, (mem_sortedTicks ly _).mpr h2⟩
  have hkeys : (value_counts_pairs (lx.zip ly)).Pairwise (fun e1 e2 => e1.1 ≠ e2.1) := by
    refine (List.Perm.pairwise_iff (fun hxy => Ne.symm hxy) hperm).mpr ?_
    exact List.Pairwise.map _ (fun a b hab => hab) (nodup_uniqFirst _)
  have hcells : (value_counts_pairs (lx.zip ly)).Pairwise (fun e1 e2 =>
      (sortedTicks ly).findIdx (fun t => t == e1.1.2) ≠
        (sortedTicks ly).findIdx (fun t => t == e2.1.2) ∨
      (sortedTicks lx).findIdx (fun t => t == e1.1.1) ≠
        (sortedTicks lx).findIdx (fun t => t == e2.1.1)) := by
    refine List.Pairwise.imp_of_mem ?_ hkeys
    intro a b ha hb hne
    by_contra hcon
    push_neg at hcon
    exact hne (Prod.ext
      (findIdx_beq_inj (sortedTicks lx) a.1.1 b.1.1 (hmem a ha).1 (hmem b hb).1 hcon.2)
      (findIdx_beq_inj (sortedTicks ly) a.1.2 b.1.2 (hmem a ha).2 (hmem b hb).2 hcon.1))
  have key := gridTotal_foldl_fresh
    (fun e => (sortedTicks ly).findIdx (fun t => t == e.1.2))
    (fun e => (sortedTicks lx).findIdx (fun t => t == e.1.1))
    (sortedTicks ly).length (sortedTicks lx).length
    (value_counts_pairs (lx.zip ly))
    (List.replicate (sortedTicks ly).length (List.replicate (sortedTicks lx).length 0))
    (List.length_replicate _ _)
    (fun k hk => by
      rw [List.getElem_replicate]
      exact List.length_replicate _ _)
    (fun e he => ⟨List.findIdx_lt_length_of_exists ⟨e.1.2, (hmem e he).2, by simp⟩,
      List.findIdx_lt_length_of_exists ⟨e.1.1, (hmem e he).1, by simp⟩⟩)
    (fun e he => get2d_zeros _ _ _ _)
    hcells
  rw [gridTotal_zeros, zero_add] at key
  have hs1 : ((value_counts_pairs (lx.zip ly)).map (fun e => qofNat e.2)).sum =
      (((uniqFirst (lx.zip ly)).map (fun k => (k, (lx.zip ly).count k))).map
        (fun e => qofNat e.2)).sum :=
    (hperm.map _).sum_eq
  have hs2 : ((uniqFirst (lx.zip ly)).map (fun k => (k, (lx.zip ly).count k))).map
      (fun e => qofNat e.2) = (uniqFirst (lx.zip ly)).map
        (fun k => qofNat ((lx.zip ly).count k)) := by
    rw [List.map_map]
    rfl
  have hs3 : (uniqFirst (lx.zip ly)).map (fun k => qofNat ((lx.zip ly).count k)) =
      ((uniqFirst (lx.zip ly)).map (fun k => (lx.zip ly).count k)).map
        (fun m : ℕ => (m : ℚ)) := by
    rw [List.map_map]
    apply List.map_congr_left
    intro a _
    exact qofNat_eq _
  have hs4 : (((uniqFirst (lx.zip ly)).map (fun k => (lx.zip ly).count k)).map
      (fun m : ℕ => (m : ℚ))).sum =
      ((((uniqFirst (lx.zip ly)).map (fun k => (lx.zip ly).count k)).sum : ℕ) : ℚ) :=
    (Nat.cast_list_sum _).symm
  have hs5 : ((uniqFirst (lx.zip ly)).map (fun k => (lx.zip ly).count k)).sum =
      (lx.zip ly).length :=
    sum_map_count (uniqFirst (lx.zip ly)) (nodup_uniqFirst _) (lx.zip ly)
      (fun a ha => (mem_uniqFirst _ _).mpr ha)
  rw [hs1, hs2, hs3, hs4, hs5] at key
  exact key

/-- C3: for every dataset whose two selected axis columns exist and have the
row count `n`, a successful run of `calculate_ticks_and_norm` produces a raw
contingency grid with one row per y-label and one entry per x-label in every
row, all entries non-negative, and total mass exactly `n`: no row of the input
is dropped (missing values were mapped to `"Other"` during binning, not
removed). -/
theorem calc_grid_mass_conservation (sf : ℚ → ℚ) (data : DataFrame) (xcol ycol : String)
    (nx ny : ℕ) (normalize compare_default_value : String) (alpha : ℚ) (mht : Bool)
    (dns : List String) (out : CalcOut) (n : ℕ) (cx cy : Col)
    (hx : data.get xcol = some cx) (hy : data.get ycol = some cy)
    (hcx : cx.length = n) (hcy : cy.length = n)
    (h : calculate_ticks_and_norm sf data xcol ycol nx ny normalize
      compare_default_value alpha mht dns = Except.ok out) :
    out.grid.length = out.yticks_name.length ∧
    (∀ r ∈ out.grid, r.length = out.label2index_x.length) ∧
    (∀ i j, 0 ≤ get2d out.grid i j) ∧
    gridTotal out.grid = (n : ℚ) := by
  unfold calculate_ticks_and_norm at h
  cases hb : calc_bins data xcol ycol nx ny with
  | error e =>
      rw [hb] at h
      exact absurd h (by simp)
  | ok p =>
      rw [hb] at h
      obtain ⟨hlx, hly⟩ := calc_bins_ok_inv data xcol ycol nx ny p cx cy hx hy hb
      obtain ⟨hyt, hl2i, hgrid⟩ := calc_tail_ok_inv sf p.1 p.2 normalize
        compare_default_value alpha mht dns out h
      refine ⟨?_, ?_, ?_, ?_⟩
      · rw [hgrid, hyt]
        exact (gridOf_shape _ _ _).1
      · intro r hr
        rw [hl2i, l2i_length]
        rw [hgrid] at hr
        exact gridOf_shape_mem _ _ _ r hr
      · intro i j
        rw [hgrid]
        exact gridOf_nonneg _ _ _ i j
      · rw [hgrid, gridTotal_gridOf]
        have hz : (p.1.zip p.2).length = n := by
          rw [List.length_zip, hlx, hly, hcx, hcy]
          exact min_self n
        rw [hz]

/-- Witness: a three-row frame with two x-labels and two y-labels; the grid
sums to 3. -/
theorem calc_grid_mass_conservation_witness :
    calculate_ticks_and_norm (fun _ => 0)
        (DataFrame.mk [("x", Col.strs [some "b", some "a", some "a"]),
          ("y", Col.strs [some "u", some "u", some "v"])])
        "x" "y" 10 10 "none" "none" (mkRat 1 20) false [] =
      Except.ok
        { ret_grid := [[1, 1], [1, 0]]
          ttest_result := none
          xticks_shown := ["a", "b"]
          yticks_name := ["u", "v"]
          label2index_x := [("a", 0), ("b", 1)]
          label2index_y := [("u", 0), ("v", 1)]
          occurences := [(("b", "u"), 1), (("a", "u"), 1), (("a", "v"), 1)]
          grid := [[1, 1], [1, 0]] } ∧
    gridTotal (CalcOut.grid
        { ret_grid := [[1, 1], [1, 0]]
          ttest_result := none
          xticks_shown := ["a", "b"]
          yticks_name := ["u", "v"]
          label2index_x := [("a", 0), ("b", 1)]
          label2index_y := [("u", 0), ("v", 1)]
          occurences := [(("b", "u"), 1), (("a", "u"), 1), (("a", "v"), 1)]
          grid := [[1, 1], [1, 0]] }) = ((3 : ℕ) : ℚ) :=
  ⟨by decide,
    (calc_grid_mass_conservation (fun _ => 0)
      (DataFrame.mk [("x", Col.strs [some "b", some "a", some "a"]),
        ("y", Col.strs [some "u", some "u", some "v"])])
      "x" "y" 10 10 "none" "none" (mkRat 1 20) false []
      { ret_grid := [[1, 1], [1, 0]]
        ttest_result := none
        xticks_shown := ["a", "b"]
        yticks_name := ["u", "v"]
        label2index_x := [("a", 0), ("b", 1)]
        label2index_y := [("u", 0), ("v", 1)]
        occurences := [(("b", "u"), 1), (("a", "u"), 1), (("a", "v"), 1)]
        grid := [[1, 1], [1, 0]] }
      3 (Col.strs [some "b", some "a", some "a"]) (Col.strs [some "u", some "u", some "v"])
      (by decide) (by decide) (by decide) (by decide) (by decide)).2.2.2⟩

/-! ### Frame-effect lemmas (C10) -/

theorem append_other_ne (col : String) : col ++ "_other" ≠ col := by
  intro hcon
  have hlen := congrArg String.length hcon
  rw [String.length_append] at hlen
  have h6 : ("_other" : String).length = 6 := by decide
  rw [h6] at hlen
  omega

theorem find?_setCol_map_ne (name : String) (c : Col) (c' : String)
    (hne : ¬(name == c') = true) :
    ∀ (cols : List (String × Col)),
    (cols.map (fun p => if p.1 == name then (name, c) else p)).find?
      (fun p => p.1 == c') = cols.find? (fun p => p.1 == c') := by
  intro cols
  induction cols with
  | nil => rfl
  | cons p t ih =>
      rw [List.map_cons]
      by_cases hpn : (p.1 == name) = true
      · rw [if_pos hpn]
        have hp1 : p.1 = name := eq_of_beq hpn
        rw [@List.find?_cons_of_neg _ (fun q => q.1 == c') ((name, c)) _ hne]
        rw [@List.find?_cons_of_neg _ (fun q => q.1 == c') p t
          (show ¬(p.1 == c') = true by rw [hp1]; exact hne)]
        exact ih
      · rw [if_neg hpn]
        by_cases hpc : (p.1 == c') = true
        · rw [@List.find?_cons_of_pos _ (fun q => q.1 == c') p _ hpc,
            @List.find?_cons_of_pos _ (fun q => q.1 == c') p t hpc]
        · rw [@List.find?_cons_of_neg _ (fun q => q.1 == c') p _ hpc,
            @List.find?_cons_of_neg _ (fun q => q.1 == c') p t hpc]
          exact ih

theorem find?_setCol_map_self (name : String) (c : Col) :
    ∀ (cols : List (String × Col)), cols.any (fun p => p.1 == name) = true →
    (cols.map (fun p => if p.1 == name then (name, c) else p)).find?
      (fun p => p.1 == name) = some (name, c) := by
  intro cols
  induction cols with
  | nil =>
      intro h
      exact absurd h (by simp)
  | cons p t ih =>
      intro hany
      rw [List.map_cons]
      by_cases hpn : (p.1 == name) = true
      · rw [if_pos hpn]
        exact @List.find?_cons_of_pos _ (fun q => q.1 == name) ((name, c)) _ (by simp)
      · rw [if_neg hpn, @List.find?_cons_of_neg _ (fun q => q.1 == name) p _ hpn]
        apply ih
        rcases List.any_eq_true.mp hany with ⟨q, hq, hqp⟩
        rcases List.mem_cons.mp hq with hq1 | hq2
        · exact absurd (hq1 ▸ hqp) hpn
        · exact List.any_eq_true.mpr ⟨q, hq2, hqp⟩

theorem get_setCol_ne (df : DataFrame) (name : String) (c : Col) (c' : String)
    (hne : c' ≠ name) : (df.setCol name c).get c' = df.get c' := by
  have hbe : ¬(name == c') = true := fun hc => (Ne.symm hne) (eq_of_beq hc)
  unfold DataFrame.setCol DataFrame.get
  by_cases hany : (df.cols.any (fun p => p.1 == name)) = true
  · rw [if_pos hany]
    show ((df.cols.map (fun p => if p.1 == name then (name, c) else p)).find?
      (fun p => p.1 == c')).map (fun p => p.2) = _
    rw [find?_setCol_map_ne name c c' hbe df.cols]
  · rw [if_neg hany]
    show ((df.cols ++ [(name, c)]).find? (fun p => p.1 == c')).map (fun p => p.2) = _
    rw [List.find?_append]
    have h1 : ([(name, c)] : List (String × Col)).find? (fun p => p.1 == c') = none := by
      rw [@List.find?_cons_of_neg _ (fun q => q.1 == c') ((name, c)) [] hbe]
      rfl
    rw [h1, Option.or_none]

theorem get_setCol_self (df : DataFrame) (name : String) (c : Col) :
    (df.setCol name c).get name = some c := by
  unfold DataFrame.setCol DataFrame.get
  by_cases hany : (df.cols.any (fun p => p.1 == name)) = true
  · rw [if_pos hany]
    show ((df.cols.map (fun p => if p.1 == name then (name, c) else p)).find?
      (fun p => p.1 == name)).map (fun p => p.2) = _
    rw [find?_setCol_map_self name c df.cols hany]
    rfl
  · rw [if_neg hany]
    show ((df.cols ++ [(name, c)]).find? (fun p => p.1 == name)).map (fun p => p.2) = _
    rw [List.find?_append]
    have h0 : df.cols.find? (fun p => p.1 == name) = none :=
      List.find?_eq_none.mpr (List.any_eq_false.mp ((Bool.not_eq_true _).mp hany))
    have h1 : ([(name, c)] : List (String × Col)).find? (fun p => p.1 == name) =
        some (name, c) :=
      @List.find?_cons_of_pos _ (fun q => q.1 == name) ((name, c)) [] (by simp)
    rw [h0, h1, Option.none_or]
    rfl

theorem getD_set_ne_store (s : Store) (L r : ℕ) (x : DataFrame) (hne : L ≠ r) :
    (s.set L x).getD r ⟨[]⟩ = s.getD r ⟨[]⟩ := by
  rw [List.getD_eq_getElem?_getD, List.getElem?_set_ne hne, ← List.getD_eq_getElem?_getD]

theorem getD_append_store (s : Store) (x : DataFrame) (r : ℕ) (hr : r < s.length) :
    (s ++ [x]).getD r ⟨[]⟩ = s.getD r ⟨[]⟩ := by
  rw [List.getD_eq_getElem?_getD, List.getElem?_append, if_pos hr,
    ← List.getD_eq_getElem?_getD]

/-- A successful store-level run never modifies any frame that existed before
the call: every write targets the freshly allocated copy. -/
theorem calc_st_ok_store (sf : ℚ → ℚ) (store : Store) (dataRef : ℕ)
    (xcol ycol : String) (nx ny : ℕ) (normalize compare_default_value : String)
    (alpha : ℚ) (mht : Bool) (dns : List String) (s' : Store) (out : CalcOut)
    (h : calculate_ticks_and_norm_st sf store dataRef xcol ycol nx ny normalize
      compare_default_value alpha mht dns = Except.ok (s', out)) :
    ∀ r, r < store.length → s'.getD r ⟨[]⟩ = store.getD r ⟨[]⟩ := by
  unfold calculate_ticks_and_norm_st at h
  simp only [] at h
  split at h
  · exact absurd h (by simp)
  · split at h
    · exact absurd h (by simp)
    · split at h
      · exact absurd h (by simp)
      · split at h
        · exact absurd h (by simp)
        · split at h
          · exact absurd h (by simp)
          · injection h with h1
            have hs : s' = ((((store ++
                [copyCols (store.getD dataRef ⟨[]⟩) [xcol, ycol]]).set
                store.length _).set store.length _).set store.length _).set
                store.length _ := (congrArg Prod.fst h1).symm
            intro r hr
            rw [hs, getD_set_ne_store _ _ _ _ (by omega),
              getD_set_ne_store _ _ _ _ (by omega),
              getD_set_ne_store _ _ _ _ (by omega),
              getD_set_ne_store _ _ _ _ (by omega),
              getD_append_store _ _ _ hr]

/-- C10: the cardinality reducer writes its renamed labels under the fresh
column name `col ++ "_other"` — a name distinct from `col` — and leaves every
other column of the frame (in particular the original input column) unchanged;
and a successful store-level run of `calculate_ticks_and_norm` leaves every
frame that existed before the call untouched, because the whole pipeline
mutates only the freshly allocated copy of the two selected columns. -/
theorem add_column_other_pure_frame (df : DataFrame) (col : String) (B : ℕ)
    (newcol : String) (df' : DataFrame) (sf : ℚ → ℚ) (store : Store) (dataRef : ℕ)
    (xcol ycol : String) (nx ny : ℕ) (normalize compare_default_value : String)
    (alpha : ℚ) (mht : Bool) (dns : List String) (s' : Store) (out : CalcOut)
    (h1 : add_column_other_df df col B = Except.ok (newcol, df'))
    (h2 : calculate_ticks_and_norm_st sf store dataRef xcol ycol nx ny normalize
      compare_default_value alpha mht dns = Except.ok (s', out)) :
    newcol = col ++ "_other" ∧ newcol ≠ col ∧
    (∀ c, c ≠ newcol → df'.get c = df.get c) ∧
    (∀ r, r < store.length → s'.getD r ⟨[]⟩ = store.getD r ⟨[]⟩) := by
  have hst := calc_st_ok_store sf store dataRef xcol ycol nx ny normalize
    compare_default_value alpha mht dns s' out h2
  unfold add_column_other_df at h1
  split at h1
  · injection h1 with h3
    rw [Prod.mk.injEq] at h3
    obtain ⟨h4, h5⟩ := h3
    subst h4
    subst h5
    refine ⟨rfl, append_other_ne col, ?_, hst⟩
    intro c hc
    exact get_setCol_ne df (col ++ "_other") _ c hc
  · exact absurd h1 (by simp)

/-- Witness: a one-column frame through the reducer and a one-row store-level
run; the new column name differs from the old and the caller frame at store
slot 0 is bit-identical after the call. -/
theorem add_column_other_pure_frame_witness :
    ("c_other" : String) ≠ "c" ∧
    (∀ c, c ≠ "c_other" →
      (DataFrame.mk [("c", Col.strs [some "a", some "b"]),
        ("c_other", Col.strs [some "a", some "Other"])]).get c =
      (DataFrame.mk [("c", Col.strs [some "a", some "b"])]).get c) ∧
    List.getD [DataFrame.mk [("x", Col.strs [some "p"]), ("y", Col.strs [some "q"])],
        DataFrame.mk [("x", Col.strs [some "p"]), ("y", Col.strs [some "q"])]] 0 ⟨[]⟩ =
      List.getD [DataFrame.mk [("x", Col.strs [some "p"]),
        ("y", Col.strs [some "q"])]] 0 ⟨[]⟩ := by
  have happ := add_column_other_pure_frame
    (DataFrame.mk [("c", Col.strs [some "a", some "b"])]) "c" 1 "c_other"
    (DataFrame.mk [("c", Col.strs [some "a", some "b"]),
      ("c_other", Col.strs [some "a", some "Other"])])
    (fun _ => 0)
    [DataFrame.mk [("x", Col.strs [some "p"]), ("y", Col.strs [some "q"])]] 0
    "x" "y" 10 10 "none" "none" (mkRat 1 20) false []
    [DataFrame.mk [("x", Col.strs [some "p"]), ("y", Col.strs [some "q"])],
      DataFrame.mk [("x", Col.strs [some "p"]), ("y", Col.strs [some "q"])]]
    { ret_grid := [[1]]
      ttest_result := none
      xticks_shown := ["p"]
      yticks_name := ["q"]
      label2index_x := [("p", 0)]
      label2index_y := [("q", 0)]
      occurences := [(("p", "q"), 1)]
      grid := [[1]] }
    (by decide) (by decide)
  exact ⟨happ.2.1, happ.2.2.1, happ.2.2.2 0 (by decide)⟩

end Plot3dLike
